import Mathlib

/-!
# Message-typed fields: semantics of the code emitted by `csharp_message_field.cc`

`MessageFieldGenerator` and `RepeatedMessageFieldGenerator` print member
templates for a message class and its builder.  The definitions below give the
meaning of those templates, statement by statement, over an explicit state:

* a singular field is the pair `has$capitalized_name$` / `$name$_` of `result`;
* a repeated field is the reference stored in `result.$name$_` together with
  the store of `java.util.ArrayList` objects it may point into.

Everything the templates call but do not define (the referenced message class,
its builder, the coded input stream) is a parameter, collected in `MessageType`;
the output stream is the parameter `CodedOutput`.

The text itself is given for `SetMessageVariables` and for the parsing,
serialization and size generators: the templates, word for word, with `Print`
substituting the table into them.
-/

namespace CSharpMessageField

/-! ## The referenced message class -/

/-- The surface of the referenced class `$type$` that the templates use.
`Msg` is the type of references to (immutable) message objects and `refEq`
decides reference identity, the comparison written `!=` in the templates. -/
structure MessageType where
  /-- References to objects of class `$type$`. -/
  Msg : Type
  /-- Objects of class `$type$.Builder`. -/
  Builder : Type
  /-- States of the coded input stream `input`. -/
  Input : Type
  /-- Reference identity on `$type$`. -/
  refEq : DecidableEq Msg
  /-- The static method `$type$.getDefaultInstance()`. -/
  getDefaultInstance : Msg
  /-- The static method `$type$.newBuilder()`. -/
  newBuilder : Builder
  /-- The static method `$type$.newBuilder(prototype)`. -/
  newBuilderFrom : Msg → Builder
  /-- The call `builder.mergeFrom(value)`. -/
  mergeFrom : Builder → Msg → Builder
  /-- The call `builder.build()`; `none` when it throws. -/
  build : Builder → Option Msg
  /-- The call `builder.buildPartial()`. -/
  buildPartial : Builder → Msg
  /-- The call `input.readMessage(subBuilder, extensionRegistry)`; `none` when it throws. -/
  readMessage : Input → Builder → Option (Builder × Input)
  /-- The call `input.readGroup(number, subBuilder, extensionRegistry)`; `none` when it throws. -/
  readGroup : Input → Int → Builder → Option (Builder × Input)

instance (T : MessageType) : DecidableEq T.Msg := T.refEq

/-- The enum `FieldDescriptor::Type`, restricted to the two kinds a message field has. -/
inductive FieldType where
  | TYPE_MESSAGE
  | TYPE_GROUP
  deriving DecidableEq, Repr

/-- The part of `FieldDescriptor` read by this file. -/
structure FieldDescriptor where
  /-- The value of `descriptor->name()`. -/
  name : String
  /-- The value of `descriptor->number()`. -/
  number : Int
  /-- The value of `descriptor->type()`. -/
  type : FieldType
  /-- The value of `descriptor->message_type()`, by its full name. -/
  message_type : String
  deriving DecidableEq, Repr

/-- How a call of an emitted method ends: it returns, or an exception leaves it.
Either way the builder is left in the state carried here. -/
inductive Outcome (σ : Type) where
  | returned (s : σ)
  | threw (s : σ)
  deriving DecidableEq, Repr

/-- The state a call leaves behind. -/
def Outcome.state {σ : Type} : Outcome σ → σ
  | .returned s => s
  | .threw s => s

/-- Whether the call returned normally. -/
def Outcome.isReturned {σ : Type} : Outcome σ → Bool
  | .returned _ => true
  | .threw _ => false

/-! ## Singular message field -/

/-- The two members `MessageFieldGenerator::GenerateMembers` declares:
`has$capitalized_name$` and `$name$_`. -/
structure SingularField (T : MessageType) where
  has : Bool
  value_ : T.Msg

instance (T : MessageType) : DecidableEq (SingularField T) := fun a b =>
  match a, b with
  | ⟨h1, v1⟩, ⟨h2, v2⟩ =>
    if h : h1 = h2 ∧ v1 = v2 then isTrue (by rw [h.1, h.2])
    else isFalse (fun e => h (by cases e; exact ⟨rfl, rfl⟩))

namespace MessageFieldGenerator

variable {T : MessageType}

/-- The member initialisers of `GenerateMembers`:
`private boolean has…;` and `… $name$_ = $type$.getDefaultInstance();`. -/
def init (T : MessageType) : SingularField T :=
  { has := false, value_ := T.getDefaultInstance }

/-- The accessor `has$capitalized_name$()`. -/
def hasField (s : SingularField T) : Bool := s.has

/-- The accessor `get$capitalized_name$()`. -/
def getField (s : SingularField T) : T.Msg := s.value_

/-- The builder member `set$capitalized_name$($type$ value)`. -/
def set (s : SingularField T) (value : T.Msg) : SingularField T :=
  let s1 := { s with has := true }
  { s1 with value_ := value }

/-- The builder member `set$capitalized_name$($type$.Builder builderForValue)`:
the flag is assigned, then `builderForValue.build()` is evaluated and, when it
returns, assigned to the slot. -/
def setFromBuilder (s : SingularField T) (builderForValue : T.Builder) :
    Outcome (SingularField T) :=
  let s1 := { s with has := true }
  match T.build builderForValue with
  | some v => .returned { s1 with value_ := v }
  | none => .threw s1

/-- The builder member `merge$capitalized_name$($type$ value)`. -/
def merge (s : SingularField T) (value : T.Msg) : SingularField T :=
  let s1 :=
    if hasField s && (s.value_ != T.getDefaultInstance) then
      { s with value_ := T.buildPartial (T.mergeFrom (T.newBuilderFrom s.value_) value) }
    else
      { s with value_ := value }
  { s1 with has := true }

/-- The builder member `clear$capitalized_name$()`. -/
def clear (s : SingularField T) : SingularField T :=
  let s1 := { s with has := false }
  { s1 with value_ := T.getDefaultInstance }

/-- The text of `GenerateMergingCode`, run in the builder `s` against the
message `other`. -/
def mergingCode (s other : SingularField T) : SingularField T :=
  if hasField other then merge s (getField other) else s

/-- The text of `GenerateBuildingCode`: nothing is emitted. -/
def buildingCode (s : SingularField T) : SingularField T := s

/-- The text of `GenerateParsingCode`, run in the builder `s` on the stream
`input`.  `none` when the read throws; no statement after the read has run
then, so the field is as it was. -/
def parsingCode (descriptor : FieldDescriptor) (s : SingularField T) (input : T.Input) :
    Option (SingularField T × T.Input) :=
  let subBuilder := T.newBuilder
  let subBuilder := if hasField s then T.mergeFrom subBuilder (getField s) else subBuilder
  let read :=
    if descriptor.type = FieldType.TYPE_GROUP then
      T.readGroup input descriptor.number subBuilder
    else
      T.readMessage input subBuilder
  match read with
  | some (subBuilder, input) => some (set s (T.buildPartial subBuilder), input)
  | none => none

end MessageFieldGenerator

/-! ## Repeated message field -/

/-- A reference to a `java.util.List<$type$>`, as stored in `result.$name$_`
or handed out by a list getter. -/
inductive ListRef where
  /-- The one instance `java.util.Collections.EMPTY_LIST`, which
  `java.util.Collections.emptyList()` returns. -/
  | EMPTY_LIST
  /-- An object made by `new java.util.ArrayList<$type$>()`, by its address. -/
  | arrayList (addr : Nat)
  /-- The object `java.util.Collections.unmodifiableList(inner)`: a view of `inner`. -/
  | unmodifiable (inner : ListRef)
  deriving DecidableEq, Repr

/-- The `ArrayList` objects allocated so far, by address, each with its elements. -/
abbrev Store (M : Type) := List (List M)

/-- The `ArrayList` a reference reads from, if any. -/
def ListRef.root : ListRef → Option Nat
  | .EMPTY_LIST => none
  | .arrayList a => some a
  | .unmodifiable inner => inner.root

/-- The element sequence seen through a reference. -/
def contents {M : Type} (h : Store M) : ListRef → List M
  | .EMPTY_LIST => []
  | .arrayList a => h.getD a []
  | .unmodifiable inner => contents h inner

/-- The expression `new java.util.ArrayList<$type$>()`: the store with one more, empty, list
and the reference to it. -/
def newArrayList {M : Type} (h : Store M) : Store M × ListRef :=
  (h ++ [[]], .arrayList h.length)

/-- The call `list.size()`. -/
def listSize {M : Type} (h : Store M) (r : ListRef) : Nat := (contents h r).length

/-- The call `list.isEmpty()`. -/
def listIsEmpty {M : Type} (h : Store M) (r : ListRef) : Bool := (contents h r).isEmpty

/-- The call `list.get(index)`; `none` when it throws `IndexOutOfBoundsException`. -/
def listGet {M : Type} (h : Store M) (r : ListRef) (index : Int) : Option M :=
  if 0 ≤ index then (contents h r)[index.toNat]? else none

/-- The call `list.add(e)`.  `EMPTY_LIST` inherits `AbstractList.add` and the unmodifiable
view overrides it; both throw `UnsupportedOperationException`. -/
def listAdd {M : Type} (h : Store M) : ListRef → M → Outcome (Store M)
  | .EMPTY_LIST, _ => .threw h
  | .arrayList a, e => .returned (h.set a (h.getD a [] ++ [e]))
  | .unmodifiable _, _ => .threw h

/-- The call `list.set(index, e)`.  An `ArrayList` throws `IndexOutOfBoundsException`
outside its range; the other two throw `UnsupportedOperationException`. -/
def listSet {M : Type} (h : Store M) : ListRef → Int → M → Outcome (Store M)
  | .EMPTY_LIST, _, _ => .threw h
  | .arrayList a, index, e =>
    if 0 ≤ index ∧ index.toNat < (h.getD a []).length then
      .returned (h.set a ((h.getD a []).set index.toNat e))
    else .threw h
  | .unmodifiable _, _, _ => .threw h

/-- The call `list.remove(index)`: as for `set`. -/
def listRemove {M : Type} (h : Store M) : ListRef → Int → Outcome (Store M)
  | .EMPTY_LIST, _ => .threw h
  | .arrayList a, index =>
    if 0 ≤ index ∧ index.toNat < (h.getD a []).length then
      .returned (h.set a ((h.getD a []).eraseIdx index.toNat))
    else .threw h
  | .unmodifiable _, _ => .threw h

/-- The call `list.addAll(c)` for a collection with elements `c`.  `EMPTY_LIST` inherits
`AbstractCollection.addAll`, which calls `add` once per element. -/
def listAddAll {M : Type} (h : Store M) : ListRef → List M → Outcome (Store M)
  | .EMPTY_LIST, c => if c.isEmpty then .returned h else .threw h
  | .arrayList a, c => .returned (h.set a (h.getD a [] ++ c))
  | .unmodifiable _, _ => .threw h

/-- Modelled from the spec: the inherited builder helper `addAll(values, list)`
called as `super.addAll(values, result.$name$_)`, which is not in this file:
"append-all (bulk, preserving argument order)".  It hands the values, in
argument order, to the list's own `addAll`. -/
def superAddAll {M : Type} (h : Store M) (values : List M) (list : ListRef) :
    Outcome (Store M) :=
  listAddAll h list values

/-- The member `$name$_` that `RepeatedMessageFieldGenerator::GenerateMembers`
declares, with the store its reference points into. -/
structure RepeatedField (T : MessageType) where
  store : Store T.Msg
  name_ : ListRef

namespace RepeatedMessageFieldGenerator

variable {T : MessageType}

/-- The member initialiser of `GenerateMembers`:
`$name$_ = java.util.Collections.emptyList()`. -/
def init (store : Store T.Msg) : RepeatedField T :=
  { store := store, name_ := .EMPTY_LIST }

/-- The message's `get$capitalized_name$List()`. -/
def getList (s : RepeatedField T) : ListRef := s.name_

/-- The message's `get$capitalized_name$Count()`. -/
def getCount (s : RepeatedField T) : Nat := listSize s.store s.name_

/-- The message's `get$capitalized_name$(int index)`. -/
def get (s : RepeatedField T) (index : Int) : Option T.Msg := listGet s.store s.name_ index

/-- The builder's `get$capitalized_name$List()`. -/
def builderGetList (s : RepeatedField T) : ListRef := .unmodifiable s.name_

/-- The builder's `get$capitalized_name$Count()`. -/
def builderGetCount (s : RepeatedField T) : Nat := getCount s

/-- The builder's `get$capitalized_name$(int index)`. -/
def builderGet (s : RepeatedField T) (index : Int) : Option T.Msg := get s index

/-- The element sequence of the field: what is seen through `result.$name$_`. -/
def elements (s : RepeatedField T) : List T.Msg := contents s.store s.name_

/-- The outcome of a statement that only writes the store. -/
def withStore (s : RepeatedField T) : Outcome (Store T.Msg) → Outcome (RepeatedField T)
  | .returned h => .returned { s with store := h }
  | .threw h => .threw { s with store := h }

/-- The statement `if (result.$name$_.isEmpty()) { result.$name$_ = new
java.util.ArrayList<$type$>(); }` that opens `add…` and `addAll…`. -/
def allocateIfEmpty (s : RepeatedField T) : RepeatedField T :=
  if listIsEmpty s.store s.name_ then
    { store := (newArrayList s.store).1, name_ := (newArrayList s.store).2 }
  else s

/-- The builder member `set$capitalized_name$(int index, $type$ value)`. -/
def set (s : RepeatedField T) (index : Int) (value : T.Msg) : Outcome (RepeatedField T) :=
  withStore s (listSet s.store s.name_ index value)

/-- The builder member `set$capitalized_name$(int index, $type$.Builder
builderForValue)`: the argument `builderForValue.build()` is evaluated before
`set` is entered. -/
def setFromBuilder (s : RepeatedField T) (index : Int) (builderForValue : T.Builder) :
    Outcome (RepeatedField T) :=
  match T.build builderForValue with
  | some v => withStore s (listSet s.store s.name_ index v)
  | none => .threw s

/-- The builder member `add$capitalized_name$($type$ value)`. -/
def add (s : RepeatedField T) (value : T.Msg) : Outcome (RepeatedField T) :=
  let s1 := allocateIfEmpty s
  withStore s1 (listAdd s1.store s1.name_ value)

/-- The builder member `add$capitalized_name$($type$.Builder builderForValue)`. -/
def addFromBuilder (s : RepeatedField T) (builderForValue : T.Builder) :
    Outcome (RepeatedField T) :=
  let s1 := allocateIfEmpty s
  match T.build builderForValue with
  | some v => withStore s1 (listAdd s1.store s1.name_ v)
  | none => .threw s1

/-- The builder member `addAll$capitalized_name$(values)`. -/
def addAll (s : RepeatedField T) (values : List T.Msg) : Outcome (RepeatedField T) :=
  let s1 := allocateIfEmpty s
  withStore s1 (superAddAll s1.store values s1.name_)

/-- The builder member `clear$capitalized_name$()`. -/
def clear (s : RepeatedField T) : RepeatedField T :=
  { s with name_ := .EMPTY_LIST }

/-- The text of `GenerateMergingCode`, run in the builder `s` against the list
`other.$name$_` of the message `other`. -/
def mergingCode (s : RepeatedField T) (other : ListRef) : Outcome (RepeatedField T) :=
  if !listIsEmpty s.store other then
    let s1 := allocateIfEmpty s
    withStore s1 (listAddAll s1.store s1.name_ (contents s1.store other))
  else .returned s

/-- The text of `GenerateBuildingCode`. -/
def buildingCode (s : RepeatedField T) : RepeatedField T :=
  if s.name_ ≠ .EMPTY_LIST then { s with name_ := .unmodifiable s.name_ } else s

/-- The text of `GenerateParsingCode`, run in the builder `s` on the stream
`input`; the stream after the read is returned with the outcome of the final
`add…` call.  `none` when the read throws, before any statement touched the
field. -/
def parsingCode (descriptor : FieldDescriptor) (s : RepeatedField T) (input : T.Input) :
    Option (Outcome (RepeatedField T) × T.Input) :=
  let subBuilder := T.newBuilder
  let read :=
    if descriptor.type = FieldType.TYPE_GROUP then
      T.readGroup input descriptor.number subBuilder
    else
      T.readMessage input subBuilder
  match read with
  | some (subBuilder, input) => some (add s (T.buildPartial subBuilder), input)
  | none => none

end RepeatedMessageFieldGenerator

/-! ## Histories of calls -/

namespace MessageFieldGenerator

/-- The states of a singular field that a builder can be in: the initial one,
and every state left by a call of a builder member, by the merging code or by
the parsing code, whether the call returned or threw. -/
inductive Reachable (T : MessageType) : SingularField T → Prop where
  | init : Reachable T (init T)
  | set {s : SingularField T} (value : T.Msg) :
      Reachable T s → Reachable T (set s value)
  | setFromBuilder {s : SingularField T} (builderForValue : T.Builder) :
      Reachable T s → Reachable T (setFromBuilder s builderForValue).state
  | merge {s : SingularField T} (value : T.Msg) :
      Reachable T s → Reachable T (merge s value)
  | mergingCode {s : SingularField T} (other : SingularField T) :
      Reachable T s → Reachable T (mergingCode s other)
  | parsingCode {s s' : SingularField T} (descriptor : FieldDescriptor)
      (input input' : T.Input) :
      Reachable T s → parsingCode descriptor s input = some (s', input') → Reachable T s'
  | clear {s : SingularField T} :
      Reachable T s → Reachable T (clear s)

end MessageFieldGenerator

namespace RepeatedMessageFieldGenerator

/-- A call on the builder of a repeated field. -/
inductive BuilderOp (T : MessageType) where
  | set (index : Int) (value : T.Msg)
  | setFromBuilder (index : Int) (builderForValue : T.Builder)
  | add (value : T.Msg)
  | addFromBuilder (builderForValue : T.Builder)
  | addAll (values : List T.Msg)
  | clear
  | mergingCode (other : ListRef)
  | buildingCode

/-- The outcome of one call. -/
def runOp {T : MessageType} : BuilderOp T → RepeatedField T → Outcome (RepeatedField T)
  | .set index value, s => set s index value
  | .setFromBuilder index b, s => setFromBuilder s index b
  | .add value, s => add s value
  | .addFromBuilder b, s => addFromBuilder s b
  | .addAll values, s => addAll s values
  | .clear, s => .returned (clear s)
  | .mergingCode other, s => mergingCode s other
  | .buildingCode, s => .returned (buildingCode s)

/-- The state after a sequence of calls, the caller going on after a call
that threw. -/
def runOps {T : MessageType} : List (BuilderOp T) → RepeatedField T → RepeatedField T
  | [], s => s
  | op :: ops, s => runOps ops (runOp op s).state

/-- The field holds `EMPTY_LIST` or an `ArrayList`: no unmodifiable view has
been stored in it. -/
def Unbuilt {T : MessageType} (s : RepeatedField T) : Prop :=
  s.name_ = .EMPTY_LIST ∨ ∃ a, s.name_ = .arrayList a

/-- Every `ArrayList` the field refers to has been allocated. -/
def Allocated {T : MessageType} (s : RepeatedField T) : Prop :=
  ∀ a, s.name_.root = some a → a < s.store.length

/-- The list of another message does not read from the builder's own
`ArrayList`. -/
def SeparateFrom {T : MessageType} (s : RepeatedField T) (other : ListRef) : Prop :=
  ∀ a, s.name_ = .arrayList a → other.root ≠ some a

/-- The store `st` extends the first `n` lists of `h0` without changing them. -/
def Preserves {M : Type} (n : Nat) (h0 st : Store M) : Prop :=
  n ≤ st.length ∧ ∀ a, a < n → st.getD a [] = h0.getD a []

/-- The reference gives no write access to any of the first `n` lists: it is
`EMPTY_LIST`, an unmodifiable view, or an `ArrayList` allocated after them. -/
def NoWriteBelow (n : Nat) : ListRef → Prop
  | .EMPTY_LIST => True
  | .arrayList a => n ≤ a
  | .unmodifiable _ => True

/-- Modelled from the spec: the hand-over of the built value, done by the
message generator's `build` method, which is not in this file: "an immutable
snapshot produced by a one-way build transition from a builder value", while
"the builder may continue to exist and be mutated further".  The snapshot is
the reference the building code left in `result.$name$_`. -/
def builtSnapshot {T : MessageType} (s : RepeatedField T) : ListRef :=
  getList (buildingCode s)

end RepeatedMessageFieldGenerator

/-! ## Two referenced classes for the worked examples -/

/-- References to the objects of one message class, told apart as the templates
tell them apart: the class's default instance, or an object that a builder
made, given by its content. -/
inductive Ref (C : Type) where
  | defaultInstance
  | built (content : C)
  deriving DecidableEq, Repr

/-- Modelled from the spec: a message class as the message generator, which is
not in this file, emits it for the referenced type.  Its merge is the given
field-wise rule ("scalar sub-fields overwrite, nested message sub-fields
recurse further, repeated sub-fields concatenate"), merging from the default
instance adds nothing, `buildPartial` hands out the builder's own object,
`build` throws on a builder with a required field missing, and a wire
occurrence either decodes to some content, merged into the sub-builder, or is
malformed. -/
def MessageType.ofContent (C : Type) [DecidableEq C] (dflt : C) (mergeContent : C → C → C)
    (isInitialized : C → Bool) : MessageType where
  Msg := Ref C
  Builder := C
  Input := List (Option C)
  refEq := inferInstance
  getDefaultInstance := .defaultInstance
  newBuilder := dflt
  newBuilderFrom := fun prototype =>
    match prototype with
    | .defaultInstance => dflt
    | .built c => mergeContent dflt c
  mergeFrom := fun b other =>
    match other with
    | .defaultInstance => b
    | .built c => mergeContent b c
  build := fun b => if isInitialized b then some (.built b) else none
  buildPartial := fun b => .built b
  readMessage := fun input b =>
    match input with
    | some c :: rest => some (mergeContent b c, rest)
    | _ => none
  readGroup := fun input _ b =>
    match input with
    | some c :: rest => some (mergeContent b c, rest)
    | _ => none

/-- Modelled from the spec: "scalar sub-fields overwrite" — an optional scalar
of the merged message is the incoming one when that is set, the old one
otherwise. -/
def overwrite (old incoming : Option Int) : Option Int :=
  match incoming with
  | some v => some v
  | none => old

/-- The content of a message with two optional integer fields `a` and `b`. -/
structure SubAB where
  a : Option Int
  b : Option Int
  deriving DecidableEq, Repr

/-- Modelled from the spec: the class of "submessage {a,b}". -/
def subABType : MessageType :=
  MessageType.ofContent SubAB ⟨none, none⟩
    (fun x y => ⟨overwrite x.a y.a, overwrite x.b y.b⟩) (fun _ => true)

/-- The content of a message `Child` with one integer field `x`. -/
structure Child where
  x : Option Int
  deriving DecidableEq, Repr

/-- Modelled from the spec: the class of "Child{x:int} where Child's own merge
overwrites x"; `x` is taken to be a required field, so that `build` throws on a
builder in which it is not set. -/
def childType : MessageType :=
  MessageType.ofContent Child ⟨none⟩ (fun x y => ⟨overwrite x.x y.x⟩) (fun c => c.x.isSome)

/-- A `Child` object with `x` set, made by a builder. -/
def child (x : Int) : childType.Msg := Ref.built (Child.mk (some x))

/-! ## The emitted text -/

/-- The C++ `map<string, string>` held in `variables_`, as the list of its
entries. -/
abbrev VarMap := List (String × String)

/-- The entry of a key, if the map has one. -/
def VarMap.find : VarMap → String → Option String
  | [], _ => none
  | (k', v) :: rest, k => if k' = k then some v else VarMap.find rest k

/-- The assignment `(*map)[k] = v`: the entry of `k` is replaced, or added when
the map has none. -/
def VarMap.assign : VarMap → String → String → VarMap
  | [], k, v => [(k, v)]
  | (k', v') :: rest, k, v =>
    if k' = k then (k', v) :: rest else (k', v') :: VarMap.assign rest k v

/-- The keys of the map. -/
def VarMap.keys (m : VarMap) : List String := m.map Prod.fst

/-- The naming helpers of `csharp_helpers.h`, which are not in this file. -/
structure Helpers where
  /-- The helper `UnderscoresToCamelCase(descriptor)`. -/
  UnderscoresToCamelCase : FieldDescriptor → String
  /-- The helper `UnderscoresToCapitalizedCamelCase(descriptor)`. -/
  UnderscoresToCapitalizedCamelCase : FieldDescriptor → String
  /-- The helper `ClassName(descriptor->message_type())`. -/
  ClassName : String → String

/-- Modelled from the spec: the helper `SimpleItoa` of `strutil.h`, which is
not in this file; the `number` entry of the table is the field number as text,
written in decimal. -/
def SimpleItoa (i : Int) : String :=
  if i < 0 then "-" ++ Nat.repr i.natAbs else Nat.repr i.natAbs

/-- The value `SetMessageVariables` stores under `group_or_message`. -/
def group_or_message (descriptor : FieldDescriptor) : String :=
  if descriptor.type = FieldType.TYPE_GROUP then "Group" else "Message"

/-- The function `SetMessageVariables(descriptor, variables)`. -/
def SetMessageVariables (H : Helpers) (descriptor : FieldDescriptor) (vars : VarMap) : VarMap :=
  let vars := vars.assign "name" (H.UnderscoresToCamelCase descriptor)
  let vars := vars.assign "capitalized_name" (H.UnderscoresToCapitalizedCamelCase descriptor)
  let vars := vars.assign "number" (SimpleItoa descriptor.number)
  let vars := vars.assign "type" (H.ClassName descriptor.message_type)
  vars.assign "group_or_message" (group_or_message descriptor)

/-- The scan behind `Print`: outside a placeholder (`none`) a character is
copied and `$` opens a placeholder; inside one (`some name`, the name read so
far) `$` closes it and the value of the name is written, `$$` standing for a
`$` itself. -/
def substitute (vars : VarMap) : List Char → Option (List Char) → List Char
  | [], _ => []
  | c :: cs, none =>
    if c = '$' then substitute vars cs (some []) else c :: substitute vars cs none
  | c :: cs, some name =>
    if c = '$' then
      (if name = [] then ['$'] else ((VarMap.find vars (String.mk name)).getD "").data)
        ++ substitute vars cs none
    else substitute vars cs (some (name ++ [c]))

/-- Modelled from the spec: `io::Printer::Print(variables, text)`, which is not
in this file: the sink "accepts text containing named placeholders plus a
name→text table; performs literal substitution with no further
interpretation".  The result is the text written, the indentation the caller
has set on the printer being left out. -/
def Print (vars : VarMap) (text : String) : String :=
  String.mk (substitute vars text.data none)

namespace MessageFieldGenerator

/-- The member `variables_` as the constructor `MessageFieldGenerator(descriptor)`
leaves it. -/
def variables_ (H : Helpers) (descriptor : FieldDescriptor) : VarMap :=
  SetMessageVariables H descriptor []

/-- The text written by `GenerateParsingCode`. -/
def GenerateParsingCode (H : Helpers) (descriptor : FieldDescriptor) : String :=
  Print (variables_ H descriptor)
    "$type$.Builder subBuilder = $type$.newBuilder();\r\nif (has$capitalized_name$()) \x7b\r\n  subBuilder.mergeFrom(get$capitalized_name$());\r\n\x7d\r\n"
  ++ (if descriptor.type = FieldType.TYPE_GROUP then
      Print (variables_ H descriptor)
        "input.readGroup($number$, subBuilder, extensionRegistry);\r\n"
    else
      Print (variables_ H descriptor)
        "input.readMessage(subBuilder, extensionRegistry);\r\n")
  ++ Print (variables_ H descriptor)
    "set$capitalized_name$(subBuilder.buildPartial());\r\n"

/-- The text written by `GenerateSerializationCode`. -/
def GenerateSerializationCode (H : Helpers) (descriptor : FieldDescriptor) : String :=
  Print (variables_ H descriptor)
    "if (has$capitalized_name$()) \x7b\r\n  output.write$group_or_message$($number$, get$capitalized_name$());\r\n\x7d\r\n"

/-- The text written by `GenerateSerializedSizeCode`. -/
def GenerateSerializedSizeCode (H : Helpers) (descriptor : FieldDescriptor) : String :=
  Print (variables_ H descriptor)
    "if (has$capitalized_name$()) \x7b\r\n  size += com.google.protobuf.CodedOutputStream\r\n    .compute$group_or_message$Size($number$, get$capitalized_name$());\r\n\x7d\r\n"

end MessageFieldGenerator

namespace RepeatedMessageFieldGenerator

/-- The member `variables_` as the constructor
`RepeatedMessageFieldGenerator(descriptor)` leaves it. -/
def variables_ (H : Helpers) (descriptor : FieldDescriptor) : VarMap :=
  SetMessageVariables H descriptor []

/-- The text written by `GenerateParsingCode`. -/
def GenerateParsingCode (H : Helpers) (descriptor : FieldDescriptor) : String :=
  Print (variables_ H descriptor)
    "$type$.Builder subBuilder = $type$.newBuilder();\r\n"
  ++ (if descriptor.type = FieldType.TYPE_GROUP then
      Print (variables_ H descriptor)
        "input.readGroup($number$, subBuilder, extensionRegistry);\r\n"
    else
      Print (variables_ H descriptor)
        "input.readMessage(subBuilder, extensionRegistry);\r\n")
  ++ Print (variables_ H descriptor)
    "add$capitalized_name$(subBuilder.buildPartial());\r\n"

/-- The text written by `GenerateSerializationCode`. -/
def GenerateSerializationCode (H : Helpers) (descriptor : FieldDescriptor) : String :=
  Print (variables_ H descriptor)
    "for ($type$ element : get$capitalized_name$List()) \x7b\r\n  output.write$group_or_message$($number$, element);\r\n\x7d\r\n"

/-- The text written by `GenerateSerializedSizeCode`. -/
def GenerateSerializedSizeCode (H : Helpers) (descriptor : FieldDescriptor) : String :=
  Print (variables_ H descriptor)
    "for ($type$ element : get$capitalized_name$List()) \x7b\r\n  size += com.google.protobuf.CodedOutputStream\r\n    .compute$group_or_message$Size($number$, element);\r\n\x7d\r\n"

end RepeatedMessageFieldGenerator

/-! ## Serialization, size and runs of the parsing code -/

/-- A byte of the wire. -/
abbrev Byte := Nat

/-- The part of `com.google.protobuf.CodedOutputStream` the templates call:
the bytes a `write…` call appends to the output and the `int` a `compute…Size`
call returns, for a field number and a value. -/
structure CodedOutput (T : MessageType) where
  /-- The bytes appended by `output.writeGroup(number, value)`. -/
  writeGroup : Int → T.Msg → List Byte
  /-- The bytes appended by `output.writeMessage(number, value)`. -/
  writeMessage : Int → T.Msg → List Byte
  /-- The value of `CodedOutputStream.computeGroupSize(number, value)`. -/
  computeGroupSize : Int → T.Msg → Int
  /-- The value of `CodedOutputStream.computeMessageSize(number, value)`. -/
  computeMessageSize : Int → T.Msg → Int

/-- The value of a Java `int` expression whose mathematical value is `x`:
`x` wrapped into the 32-bit two's-complement range. -/
def javaInt (x : Int) : Int := (x + 2147483648) % 4294967296 - 2147483648

/-- The integer is the value of a Java `int`. -/
def IsJavaInt (x : Int) : Prop := -2147483648 ≤ x ∧ x < 2147483648

/-- The call `output.write$group_or_message$($number$, value)`: the routine is
the one the table's `group_or_message` entry names, the number the one its
`number` entry spells. -/
def writeGroupOrMessage {T : MessageType} (O : CodedOutput T) (descriptor : FieldDescriptor)
    (value : T.Msg) : List Byte :=
  if group_or_message descriptor = "Group" then O.writeGroup descriptor.number value
  else O.writeMessage descriptor.number value

/-- The call `CodedOutputStream.compute$group_or_message$Size($number$, value)`. -/
def computeGroupOrMessageSize {T : MessageType} (O : CodedOutput T)
    (descriptor : FieldDescriptor) (value : T.Msg) : Int :=
  if group_or_message descriptor = "Group" then O.computeGroupSize descriptor.number value
  else O.computeMessageSize descriptor.number value

/-- The read statement of both `GenerateParsingCode`: `readGroup` with the
field number for a group, `readMessage` otherwise. -/
def readOccurrence (T : MessageType) (descriptor : FieldDescriptor) (input : T.Input)
    (subBuilder : T.Builder) : Option (T.Builder × T.Input) :=
  if descriptor.type = FieldType.TYPE_GROUP then
    T.readGroup input descriptor.number subBuilder
  else
    T.readMessage input subBuilder

/-- What the spec says of one wire occurrence of a repeated field: "construct
a fresh sub-builder …, decode per wire kind, finalize".  The elements decoded
from the occurrences at which the stream stands in `inputs`, each on its own;
`none` when one of them is malformed. -/
def decodeEach (T : MessageType) (descriptor : FieldDescriptor) :
    List T.Input → Option (List T.Msg)
  | [] => some []
  | input :: rest =>
    match readOccurrence T descriptor input T.newBuilder with
    | some (subBuilder, _) =>
      match decodeEach T descriptor rest with
      | some ds => some (T.buildPartial subBuilder :: ds)
      | none => none
    | none => none

/-- The original bytes of a wire region: those of its occurrences, in order. -/
def regionBytes {I : Type} (occurrence : I → List Byte) (region : List I) : List Byte :=
  region.flatMap occurrence

namespace MessageFieldGenerator

variable {T : MessageType}

/-- The text of `GenerateSerializationCode`, run in the message `s` on the
bytes written so far. -/
def serializationCode (O : CodedOutput T) (descriptor : FieldDescriptor)
    (s : SingularField T) (output : List Byte) : List Byte :=
  if hasField s then output ++ writeGroupOrMessage O descriptor (getField s) else output

/-- The text of `GenerateSerializedSizeCode`, run in the message `s` on the
`int` variable `size`. -/
def serializedSizeCode (O : CodedOutput T) (descriptor : FieldDescriptor)
    (s : SingularField T) (size : Int) : Int :=
  if hasField s then javaInt (size + computeGroupOrMessageSize O descriptor (getField s))
  else size

/-- The parsing code run once for each occurrence, the stream standing at
`inputs` in turn; `none` when a run throws. -/
def parseEach (descriptor : FieldDescriptor) :
    List T.Input → SingularField T → Option (SingularField T)
  | [], s => some s
  | input :: rest, s =>
    match parsingCode descriptor s input with
    | some (s', _) => parseEach descriptor rest s'
    | none => none

end MessageFieldGenerator

namespace RepeatedMessageFieldGenerator

variable {T : MessageType}

/-- The text of `GenerateSerializationCode`, run in the message `s` on the
bytes written so far: one write for each element of `get…List()`, in order. -/
def serializationCode (O : CodedOutput T) (descriptor : FieldDescriptor)
    (s : RepeatedField T) (output : List Byte) : List Byte :=
  (contents s.store (getList s)).foldl
    (fun output element => output ++ writeGroupOrMessage O descriptor element) output

/-- The text of `GenerateSerializedSizeCode`, run in the message `s` on the
`int` variable `size`. -/
def serializedSizeCode (O : CodedOutput T) (descriptor : FieldDescriptor)
    (s : RepeatedField T) (size : Int) : Int :=
  (contents s.store (getList s)).foldl
    (fun size element => javaInt (size + computeGroupOrMessageSize O descriptor element)) size

/-- The parsing code run once for each occurrence, the stream standing at
`inputs` in turn; `none` when a run throws. -/
def parseEach (descriptor : FieldDescriptor) :
    List T.Input → RepeatedField T → Option (RepeatedField T)
  | [], s => some s
  | input :: rest, s =>
    match parsingCode descriptor s input with
    | some (.returned s', _) => parseEach descriptor rest s'
    | _ => none

/-- Several builders over one store: the store and the field of each builder. -/
structure Builders (T : MessageType) where
  store : Store T.Msg
  fields : List ListRef

/-- One call on the builder at position `i`. -/
def callOn (w : Builders T) (i : Nat) (op : BuilderOp T) : Builders T :=
  match w.fields[i]? with
  | some r =>
    { store := (runOp op { store := w.store, name_ := r }).state.store,
      fields := w.fields.set i (runOp op { store := w.store, name_ := r }).state.name_ }
  | none => w

/-- A sequence of calls, each on one of the builders. -/
def runCalls : List (Nat × BuilderOp T) → Builders T → Builders T
  | [], w => w
  | (i, op) :: calls, w => runCalls calls (callOn w i op)

/-- The call of `add…` allocates an `ArrayList`. -/
def Allocates (s : RepeatedField T) (value : T.Msg) : Prop :=
  (add s value).state.store.length = s.store.length + 1

end RepeatedMessageFieldGenerator

/-! ## A wire format for the worked examples -/

/-- The content bytes of a `Child` in the examples: a marker and, when `x` is
set, its value. -/
def encodeChild : Ref Child → List Byte
  | .defaultInstance => [0]
  | .built ⟨none⟩ => [0]
  | .built ⟨some v⟩ => [1, v.toNat]

/-- An output stream for `Child` in the examples: a message is its number, the
marker 2 and its content; a group is its number, the marker 3, its content and
the closing marker 4.  The sizes are the lengths of what is written. -/
def childOutput : CodedOutput childType where
  writeGroup := fun number value => number.toNat :: 3 :: encodeChild value ++ [4]
  writeMessage := fun number value => number.toNat :: 2 :: encodeChild value
  computeGroupSize := fun _ value => ((encodeChild value).length + 3 : Nat)
  computeMessageSize := fun _ value => ((encodeChild value).length + 2 : Nat)

/-- The occurrence at which the stream stands is well formed for the field: the
read routine of the field's wire kind decodes it into a fresh sub-builder. -/
def wellFormedOccurrence (T : MessageType) (descriptor : FieldDescriptor) (input : T.Input) :
    Bool :=
  match descriptor.type with
  | .TYPE_GROUP => (T.readGroup input descriptor.number T.newBuilder).isSome
  | .TYPE_MESSAGE => (T.readMessage input T.newBuilder).isSome

/-- The tag byte on the wire of the examples: the field number with the wire
type, 2 for a length-delimited unit, 3 for the start of a group and 4 for its
end. -/
def wireTag (number : Int) (wireType : Nat) : Byte := 8 * number.toNat + wireType

/-- The content of a `Child` read off the wire of the examples, with the bytes
that follow it: the marker 0, or the marker 1 and the value of `x`. -/
def decodeChild : List Byte → Option (Child × List Byte)
  | 0 :: rest => some (Child.mk none, rest)
  | 1 :: v :: rest => some (Child.mk (some (v : Int)), rest)
  | _ => none

/-- Modelled from the spec: the class of `Child{x:int}` again, with a stream of
bytes: `readMessage` reads a length and a content of that length,
`readGroup` a content and the end tag of the field; both merge the content
into the sub-builder, and throw on anything else. -/
def wireChildType : MessageType where
  Msg := Ref Child
  Builder := Child
  Input := List Byte
  refEq := inferInstance
  getDefaultInstance := .defaultInstance
  newBuilder := Child.mk none
  newBuilderFrom := fun prototype =>
    match prototype with
    | .defaultInstance => Child.mk none
    | .built c => Child.mk (overwrite none c.x)
  mergeFrom := fun b other =>
    match other with
    | .defaultInstance => b
    | .built c => Child.mk (overwrite b.x c.x)
  build := fun b => if b.x.isSome then some (.built b) else none
  buildPartial := fun b => .built b
  readMessage := fun input b =>
    match input with
    | len :: rest =>
      match decodeChild rest with
      | some (c, rest') =>
        if rest.length = len + rest'.length then some (Child.mk (overwrite b.x c.x), rest')
        else none
      | none => none
    | [] => none
  readGroup := fun input number b =>
    match decodeChild input with
    | some (c, e :: rest') =>
      if e = wireTag number 4 then some (Child.mk (overwrite b.x c.x), rest') else none
    | _ => none

/-- The output stream that goes with `wireChildType`: a message is written as
its tag, the length of its content and the content, a group as its start tag,
the content and its end tag. -/
def wireChildOutput : CodedOutput wireChildType where
  writeGroup := fun number value => wireTag number 3 :: encodeChild value ++ [wireTag number 4]
  writeMessage := fun number value =>
    wireTag number 2 :: (encodeChild value).length :: encodeChild value
  computeGroupSize := fun _ value => ((encodeChild value).length + 2 : Nat)
  computeMessageSize := fun _ value => ((encodeChild value).length + 2 : Nat)

/-- The bytes, on the wire of the examples, of the unit whose content a stream
stands at: the tag that was read before it and the bytes the unit goes on for,
taken from the stream. -/
def wireOccurrence (number : Int) (kind : FieldType) (input : List Byte) : List Byte :=
  match kind with
  | .TYPE_MESSAGE => wireTag number 2 :: input.take (1 + input.headD 0)
  | .TYPE_GROUP =>
    wireTag number 3 :: input.take (match input with
      | 0 :: _ => 2
      | _ => 3)

/-- A singular or repeated field `child`, number 3, of type `Child`, as a
message. -/
def childField : FieldDescriptor :=
  { name := "child", number := 3, type := FieldType.TYPE_MESSAGE, message_type := "Child" }

/-- The field `child` as a group. -/
def childGroupField : FieldDescriptor :=
  { name := "child", number := 3, type := FieldType.TYPE_GROUP, message_type := "Child" }

/-! ## The statements looked for in the emitted text -/

/-- The statement that reads a group: `readGroup` with the field number. -/
def readGroupStatement (number : String) : String :=
  "input.readGroup(" ++ number ++ ", subBuilder, extensionRegistry);\r\n"

/-- The statement that reads a length-delimited message. -/
def readMessageStatement : String :=
  "input.readMessage(subBuilder, extensionRegistry);\r\n"

/-- The statement that writes `value` with the routine `write<routine>` and the
field number. -/
def writeStatement (routine number value : String) : String :=
  "output.write" ++ routine ++ "(" ++ number ++ ", " ++ value ++ ");\r\n"

/-- The statement that adds to `size` what the routine `compute<routine>Size`
returns for `value` and the field number. -/
def computeSizeStatement (routine number value : String) : String :=
  "size += com.google.protobuf.CodedOutputStream\r\n    .compute" ++ routine ++ "Size("
    ++ number ++ ", " ++ value ++ ");\r\n"

/-- The guard of the singular templates: `if (has<Name>()) {`. -/
def hasGuard (capitalized_name : String) : String :=
  "if (has" ++ capitalized_name ++ "()) \x7b\r\n  "

/-- The loop head of the repeated templates:
`for (<type> element : get<Name>List()) {`. -/
def elementLoop (type capitalized_name : String) : String :=
  "for (" ++ type ++ " element : get" ++ capitalized_name ++ "List()) \x7b\r\n  "

/-- The statements `GenerateParsingCode` of the singular generator writes before
the read: the sub-builder and its seeding from the current value. -/
def singularParsingHead (type capitalized_name : String) : String :=
  type ++ ".Builder subBuilder = " ++ type ++ ".newBuilder();\r\n" ++ hasGuard capitalized_name
    ++ "subBuilder.mergeFrom(get" ++ capitalized_name ++ "());\r\n\x7d\r\n"

/-- The statement `GenerateParsingCode` of the singular generator writes after
the read. -/
def singularParsingTail (capitalized_name : String) : String :=
  "set" ++ capitalized_name ++ "(subBuilder.buildPartial());\r\n"

/-- The statement `GenerateParsingCode` of the repeated generator writes before
the read. -/
def repeatedParsingHead (type : String) : String :=
  type ++ ".Builder subBuilder = " ++ type ++ ".newBuilder();\r\n"

/-- The statement `GenerateParsingCode` of the repeated generator writes after
the read. -/
def repeatedParsingTail (capitalized_name : String) : String :=
  "add" ++ capitalized_name ++ "(subBuilder.buildPartial());\r\n"

/-- The call `get<Name>()` the singular templates pass as the value. -/
def getterCall (capitalized_name : String) : String :=
  "get" ++ capitalized_name ++ "()"

/-! ## Singular field: theorems -/

namespace MessageFieldGenerator

/-- C1, as stated, fails: with presence true and the slot holding the default
instance of `Child` itself, `merge…` stores the incoming reference (here the
default instance again) and builds nothing, while
`newBuilder(existing).mergeFrom(v).buildPartial()` is an object made by a builder. -/
theorem merge_with_default_instance_in_slot_builds_nothing :
    (SingularField.mk true Ref.defaultInstance : SingularField childType).has = true ∧
    (merge (SingularField.mk true Ref.defaultInstance : SingularField childType)
        Ref.defaultInstance).value_ = Ref.defaultInstance ∧
    childType.buildPartial
        (childType.mergeFrom (childType.newBuilderFrom Ref.defaultInstance) Ref.defaultInstance)
      = Ref.built (Child.mk none) ∧
    (merge (SingularField.mk true Ref.defaultInstance : SingularField childType)
        Ref.defaultInstance).value_ ≠
      childType.buildPartial
        (childType.mergeFrom (childType.newBuilderFrom Ref.defaultInstance) Ref.defaultInstance) := by
  refine ⟨rfl, rfl, rfl, ?_⟩
  decide

/-- C1 (amended): for every builder state and incoming value `v`, if presence is
true and the stored value is not the default instance, the value stored by
`merge…` is `newBuilder(existing).mergeFrom(v).buildPartial()`; if presence is
false or the stored value is the default instance, it is `v` itself; presence
is true afterwards.  With a sub-message merge that overwrites scalars and keeps
the others, `{a:1}` merged with `{b:2}` gives `{a:1,b:2}`, and `child = {x:5}`
merged with `{x:7}` gives `x = 7`. -/
theorem merge_stores_merged_or_incoming :
    (∀ (T : MessageType) (s : SingularField T) (v : T.Msg),
      (s.has = true ∧ s.value_ ≠ T.getDefaultInstance →
        (merge s v).value_ = T.buildPartial (T.mergeFrom (T.newBuilderFrom s.value_) v)) ∧
      (s.has = false ∨ s.value_ = T.getDefaultInstance → (merge s v).value_ = v) ∧
      (merge s v).has = true) ∧
    merge (SingularField.mk true (Ref.built (SubAB.mk (some 1) none)) : SingularField subABType)
        (Ref.built (SubAB.mk none (some 2)))
      = SingularField.mk true (Ref.built (SubAB.mk (some 1) (some 2))) ∧
    merge (SingularField.mk true (Ref.built (Child.mk (some 5))) : SingularField childType)
        (Ref.built (Child.mk (some 7)))
      = SingularField.mk true (Ref.built (Child.mk (some 7))) := by
  refine ⟨?_, ?_, ?_⟩
  · intro T s v
    refine ⟨?_, ?_, rfl⟩
    · rintro ⟨hp, hd⟩
      simp [merge, hasField, hp, hd]
    · intro h
      rcases h with hp | hd
      · simp [merge, hasField, hp]
      · simp [merge, hasField, hd]
  · decide
  · decide

/-- C2: when the other message's presence is false the merging code leaves the
presence flag and the stored value of the builder as they were; when it is true
the result is that of the builder's `merge…` on the other's value. -/
theorem mergingCode_follows_other_presence (T : MessageType) (s other : SingularField T) :
    (other.has = false →
      mergingCode s other = s ∧ (mergingCode s other).has = s.has ∧
        (mergingCode s other).value_ = s.value_) ∧
    (other.has = true → mergingCode s other = merge s other.value_) := by
  constructor
  · intro h
    have e : mergingCode s other = s := by simp [mergingCode, hasField, h]
    rw [e]
    exact ⟨rfl, rfl, rfl⟩
  · intro h
    simp [mergingCode, hasField, getField, h]

/-- Absent implies default, in every reachable state. -/
theorem reachable_absent_default {T : MessageType} {s : SingularField T}
    (h : Reachable T s) : s.has = false → s.value_ = T.getDefaultInstance := by
  induction h with
  | init => intro _; rfl
  | set value _ _ => intro hf; simp [set] at hf
  | @setFromBuilder s b _ _ =>
    intro hf
    unfold setFromBuilder at hf
    cases hb : T.build b <;> simp [hb, Outcome.state] at hf
  | merge value _ _ => intro hf; simp [merge] at hf
  | @mergingCode s other _ ih =>
    intro hf
    unfold mergingCode at hf ⊢
    by_cases ho : hasField other = true
    · simp [ho, merge] at hf
    · simp only [ho] at hf ⊢
      exact ih hf
  | @parsingCode s s' d input input' _ hp _ =>
    intro hf
    unfold parsingCode at hp
    simp only at hp
    split at hp
    · simp only [Option.some.injEq, Prod.mk.injEq] at hp
      rw [← hp.1] at hf
      simp [set] at hf
    · simp at hp
  | clear _ _ => intro _; rfl

/-- C3: the fresh state has presence false and value the default instance `D`;
in every state reachable from it by `set`, `set` from a sub-builder, `merge`,
the merging code, the parsing code and `clear`, presence false implies that
the getter returns `D`; and `clear` from any state gives presence false and
value `D`. -/
theorem absent_field_reads_default (T : MessageType) :
    (hasField (init T) = false ∧ getField (init T) = T.getDefaultInstance) ∧
    (∀ s : SingularField T, Reachable T s →
      hasField s = false → getField s = T.getDefaultInstance) ∧
    (∀ s : SingularField T,
      hasField (clear s) = false ∧ getField (clear s) = T.getDefaultInstance) := by
  refine ⟨⟨rfl, rfl⟩, ?_, fun s => ⟨rfl, rfl⟩⟩
  intro s hs hf
  exact reachable_absent_default hs hf

/-- C4: after `set…(v)` presence is true and the getter returns `v`, whatever
the presence and the value were before; so `set…(v)` after `set…(u)` is
`set…(v)`. -/
theorem set_replaces_wholesale (T : MessageType) (s s' : SingularField T) (u v : T.Msg) :
    hasField (set s v) = true ∧ getField (set s v) = v ∧
    set s v = set s' v ∧ set (set s u) v = set s v :=
  ⟨rfl, rfl, rfl, rfl⟩

/-- C5, at the failing input: on a fresh builder (presence false, value the
default instance), `set…` from a sub-builder whose `build()` throws leaves
presence true.  When `build()` returns `v`, the call does what `set…(v)` does. -/
theorem setFromBuilder_failed_build_sets_presence :
    childType.build childType.newBuilder = none ∧
    hasField (init childType) = false ∧
    setFromBuilder (init childType) childType.newBuilder
      = Outcome.threw (SingularField.mk true Ref.defaultInstance) ∧
    (∀ (T : MessageType) (s : SingularField T) (b : T.Builder) (v : T.Msg),
      T.build b = some v → setFromBuilder s b = Outcome.returned (set s v)) := by
  refine ⟨rfl, rfl, rfl, ?_⟩
  intro T s b v hb
  simp [setFromBuilder, set, hb]

end MessageFieldGenerator

/-! ## Repeated field: theorems -/

theorem getD_set_self {M : Type} (h : Store M) (a : Nat) (x : List M) (ha : a < h.length) :
    (h.set a x).getD a [] = x := by
  simp [List.getD_eq_getElem?_getD, List.getElem?_set, ha]

theorem getD_set_other {M : Type} (h : Store M) (a b : Nat) (x : List M) (hab : a ≠ b) :
    (h.set a x).getD b [] = h.getD b [] := by
  simp [List.getD_eq_getElem?_getD, List.getElem?_set, hab]

theorem getD_append_new {M : Type} (h : Store M) (x : List M) :
    (h ++ [x]).getD h.length [] = x := by
  simp [List.getD_eq_getElem?_getD]

theorem getD_append_old {M : Type} (h l : Store M) (a : Nat) (ha : a < h.length) :
    (h ++ l).getD a [] = h.getD a [] := by
  simp [List.getD_eq_getElem?_getD, List.getElem?_append_left ha]

theorem lt_length_of_getD_ne_nil {M : Type} (h : Store M) (a : Nat)
    (hne : h.getD a [] ≠ []) : a < h.length := by
  by_contra hlt
  apply hne
  simp [List.getD_eq_getElem?_getD, List.getElem?_eq_none (Nat.le_of_not_lt hlt)]

/-- What is seen through a reference depends only on the list it reads from. -/
theorem contents_eq_of_root {M : Type} (h1 h2 : Store M) (r : ListRef)
    (hr : ∀ a, r.root = some a → h1.getD a [] = h2.getD a []) :
    contents h1 r = contents h2 r := by
  induction r with
  | EMPTY_LIST => rfl
  | arrayList a => exact hr a rfl
  | unmodifiable inner ih => exact ih hr

/-- A reference that shows elements reads from an allocated list. -/
theorem root_of_contents_ne_nil {M : Type} (h : Store M) (r : ListRef)
    (hne : contents h r ≠ []) : ∃ a, r.root = some a ∧ a < h.length := by
  induction r with
  | EMPTY_LIST => exact absurd rfl hne
  | arrayList a => exact ⟨a, rfl, lt_length_of_getD_ne_nil h a hne⟩
  | unmodifiable inner ih => exact ih hne

namespace RepeatedMessageFieldGenerator

variable {T : MessageType}

/-- After the opening statement of `add…` and `addAll…`, an unbuilt field holds
an allocated `ArrayList` with the elements it had. -/
theorem allocateIfEmpty_unbuilt (s : RepeatedField T) (hs : Unbuilt s) :
    ∃ a, (allocateIfEmpty s).name_ = .arrayList a ∧ a < (allocateIfEmpty s).store.length ∧
      (allocateIfEmpty s).store.getD a [] = elements s := by
  unfold allocateIfEmpty
  by_cases he : listIsEmpty s.store s.name_ = true
  · have hnil : elements s = [] := by
      simpa [listIsEmpty, elements] using he
    simp only [he, if_true, newArrayList]
    exact ⟨s.store.length, rfl, by simp, by rw [getD_append_new, hnil]⟩
  · have hne : contents s.store s.name_ ≠ [] := by
      simpa [listIsEmpty] using he
    simp only [he]
    rcases hs with h0 | ⟨a, ha⟩
    · rw [h0] at hne
      exact absurd rfl hne
    · rw [ha] at hne
      refine ⟨a, ha, lt_length_of_getD_ne_nil _ _ hne, ?_⟩
      simp [elements, ha, contents]

/-- Appending to an unbuilt field: the call returns and the elements are the
old ones followed by the new ones. -/
theorem addAll_unbuilt (s : RepeatedField T) (hs : Unbuilt s) (vs : List T.Msg) :
    (addAll s vs).isReturned = true ∧ elements (addAll s vs).state = elements s ++ vs := by
  obtain ⟨a, ha, hlt, hc⟩ := allocateIfEmpty_unbuilt s hs
  simp only [addAll, superAddAll, ha, listAddAll, withStore, Outcome.isReturned, Outcome.state,
    elements, contents, true_and]
  rw [getD_set_self _ _ _ hlt, hc]
  rfl

theorem add_unbuilt (s : RepeatedField T) (hs : Unbuilt s) (v : T.Msg) :
    (add s v).isReturned = true ∧ elements (add s v).state = elements s ++ [v] := by
  obtain ⟨a, ha, hlt, hc⟩ := allocateIfEmpty_unbuilt s hs
  simp only [add, ha, listAdd, withStore, Outcome.isReturned, Outcome.state,
    elements, contents, true_and]
  rw [getD_set_self _ _ _ hlt, hc]
  rfl

/-- Positions below the old count read the same after an append. -/
theorem get_of_elements_append (s s' : RepeatedField T) (ws : List T.Msg)
    (h : elements s' = elements s ++ ws) (i : Nat) (hi : i < getCount s) :
    get s' (i : Int) = get s (i : Int) := by
  have hi' : i < (elements s).length := hi
  simp only [get, listGet, Int.natCast_nonneg, if_true, Int.toNat_ofNat]
  show (elements s')[i]? = (elements s)[i]?
  rw [h, List.getElem?_append_left hi']

/-- C6: in an unbuilt builder state with element sequence `xs`, `add…(v)`
returns and leaves `xs ++ [v]`, `addAll…(vs)` returns and leaves `xs ++ vs`;
the count grows by 1 and by the length of `vs`, and every position below the
old count holds the element it held. -/
theorem add_and_addAll_append (s : RepeatedField T) (hs : Unbuilt s) (v : T.Msg)
    (vs : List T.Msg) :
    ((add s v).isReturned = true ∧
      elements (add s v).state = elements s ++ [v] ∧
      getCount (add s v).state = getCount s + 1 ∧
      ∀ i : Nat, i < getCount s → get (add s v).state (i : Int) = get s (i : Int)) ∧
    ((addAll s vs).isReturned = true ∧
      elements (addAll s vs).state = elements s ++ vs ∧
      getCount (addAll s vs).state = getCount s + vs.length ∧
      ∀ i : Nat, i < getCount s → get (addAll s vs).state (i : Int) = get s (i : Int)) := by
  obtain ⟨r1, e1⟩ := add_unbuilt s hs v
  obtain ⟨r2, e2⟩ := addAll_unbuilt s hs vs
  refine ⟨⟨r1, e1, ?_, fun i hi => get_of_elements_append _ _ _ e1 i hi⟩,
    ⟨r2, e2, ?_, fun i hi => get_of_elements_append _ _ _ e2 i hi⟩⟩
  · show (elements (add s v).state).length = (elements s).length + 1
    rw [e1]; simp
  · show (elements (addAll s vs).state).length = (elements s).length + vs.length
    rw [e2]; simp

/-- C6 at a concrete input: a builder of `Child` elements that already holds
`{x:1}` in an `ArrayList`. -/
theorem add_and_addAll_append_witness :
    Unbuilt (add (init [] : RepeatedField childType) (child 1)).state ∧
    elements (add (add (init [] : RepeatedField childType)
        (child 1)).state (child 2)).state
      = elements (add (init [] : RepeatedField childType) (child 1)).state
          ++ [child 2] ∧
    elements (addAll (add (init [] : RepeatedField childType)
        (child 1)).state
        [child 2, child 3]).state
      = elements (add (init [] : RepeatedField childType) (child 1)).state
          ++ [child 2, child 3] :=
  ⟨Or.inr ⟨0, rfl⟩,
    (add_and_addAll_append _ (Or.inr ⟨0, rfl⟩) (child 2)
      [child 2, child 3]).1.2.1,
    (add_and_addAll_append _ (Or.inr ⟨0, rfl⟩) (child 2)
      [child 2, child 3]).2.2.1⟩

/-- C7, as stated, fails for the builder's list getter: after
`addAll…([i1, i2])` and `clear…()` the view it returns has length 0 but is an
unmodifiable view made for the call, not the shared `EMPTY_LIST` instance. -/
theorem builder_list_getter_after_clear_is_not_shared_empty :
    listSize
      (clear (addAll (init [] : RepeatedField childType)
        [child 1, child 2]).state).store
      (builderGetList (clear (addAll (init [] : RepeatedField childType)
        [child 1, child 2]).state)) = 0 ∧
    builderGetList (clear (addAll (init [] : RepeatedField childType)
        [child 1, child 2]).state)
      = ListRef.unmodifiable ListRef.EMPTY_LIST ∧
    builderGetList (clear (addAll (init [] : RepeatedField childType)
        [child 1, child 2]).state)
      ≠ ListRef.EMPTY_LIST := by
  refine ⟨rfl, rfl, ?_⟩
  decide

/-- C7 (amended): from every builder state, and in particular after
`addAll…([i1, i2])`, `clear…()` stores the shared `EMPTY_LIST` and allocates
nothing; afterwards the count is 0 and the view of either list getter has
length 0; the view of the message's list getter is the shared `EMPTY_LIST`
instance itself, the same for any two messages of any types, and the view of
the builder's list getter is an unmodifiable view of that instance. -/
theorem clear_stores_shared_empty (s : RepeatedField T) :
    (clear s).name_ = ListRef.EMPTY_LIST ∧ (clear s).store = s.store ∧
    getCount (clear s) = 0 ∧ builderGetCount (clear s) = 0 ∧
    listSize (clear s).store (getList (clear s)) = 0 ∧
    listSize (clear s).store (builderGetList (clear s)) = 0 ∧
    getList (clear s) = ListRef.EMPTY_LIST ∧
    (∀ (T' : MessageType) (s' : RepeatedField T'), getList (clear s) = getList (clear s')) ∧
    builderGetList (clear s) = ListRef.unmodifiable ListRef.EMPTY_LIST ∧
    (∀ i1 i2 : T.Msg,
      getCount (clear (addAll s [i1, i2]).state) = 0 ∧
      listSize (clear (addAll s [i1, i2]).state).store
        (getList (clear (addAll s [i1, i2]).state)) = 0 ∧
      listSize (clear (addAll s [i1, i2]).state).store
        (builderGetList (clear (addAll s [i1, i2]).state)) = 0) :=
  ⟨rfl, rfl, rfl, rfl, rfl, rfl, rfl, fun _ _ => rfl, rfl, fun _ _ => ⟨rfl, rfl, rfl⟩⟩

/-- C8: in an unbuilt builder state with elements `xs`, for the list of another
message with elements `ys`: if `ys` is empty the merging code returns with the
state exactly as it was; otherwise it returns with elements `xs ++ ys`, and the
other message's list still shows `ys`. -/
theorem mergingCode_appends_other (s : RepeatedField T) (other : ListRef)
    (hs : Unbuilt s) (hsep : SeparateFrom s other) :
    (contents s.store other = [] → mergingCode s other = Outcome.returned s) ∧
    (contents s.store other ≠ [] →
      (mergingCode s other).isReturned = true ∧
      elements (mergingCode s other).state = elements s ++ contents s.store other ∧
      contents (mergingCode s other).state.store other = contents s.store other) := by
  constructor
  · intro h
    simp [mergingCode, listIsEmpty, h]
  · intro hne
    obtain ⟨b, hb, hblt⟩ := root_of_contents_ne_nil s.store other hne
    obtain ⟨a, ha, hlt, hc⟩ := allocateIfEmpty_unbuilt s hs
    have hab : a ≠ b := by
      intro e
      subst e
      unfold allocateIfEmpty at ha
      by_cases he : listIsEmpty s.store s.name_ = true
      · simp only [he, if_true, newArrayList, ListRef.arrayList.injEq] at ha
        omega
      · simp only [he] at ha
        exact hsep a ha hb
    have hstore : ∀ c, c < s.store.length →
        (allocateIfEmpty s).store.getD c [] = s.store.getD c [] := by
      intro c hc'
      unfold allocateIfEmpty
      by_cases he : listIsEmpty s.store s.name_ = true
      · simp only [he, if_true, newArrayList]
        exact getD_append_old _ _ _ hc'
      · simp only [he]
        rfl
    have hys : contents (allocateIfEmpty s).store other = contents s.store other :=
      contents_eq_of_root _ _ _ (fun c hc' => by
        rw [hb] at hc'
        cases hc'
        exact hstore b hblt)
    have hempty : listIsEmpty s.store other = false := by
      simpa [listIsEmpty] using hne
    simp only [mergingCode, hempty, Bool.not_false, if_true, ha, listAddAll, withStore,
      Outcome.isReturned, Outcome.state, elements, true_and]
    constructor
    · simp only [contents]
      rw [getD_set_self _ _ _ hlt, hc, hys]
      rfl
    · rw [← hys]
      exact contents_eq_of_root _ _ _ (fun c hc' => by
        rw [hb] at hc'
        cases hc'
        exact getD_set_other _ _ _ _ hab)

/-- C8 at a concrete input: the builder holds `{x:1}` in the `ArrayList` at
address 0 and the other message shows `{x:2}` through an unmodifiable view of
the `ArrayList` at address 1. -/
theorem mergingCode_appends_other_witness :
    Unbuilt (RepeatedField.mk [[child 1], [child 2]]
      (ListRef.arrayList 0) : RepeatedField childType) ∧
    SeparateFrom (RepeatedField.mk
      [[child 1], [child 2]]
      (ListRef.arrayList 0) : RepeatedField childType)
      (ListRef.unmodifiable (ListRef.arrayList 1)) ∧
    elements (mergingCode (RepeatedField.mk
      [[child 1], [child 2]]
      (ListRef.arrayList 0) : RepeatedField childType)
      (ListRef.unmodifiable (ListRef.arrayList 1))).state
      = [child 1, child 2] :=
  ⟨Or.inr ⟨0, rfl⟩, fun a ha => by cases ha; decide,
    ((mergingCode_appends_other _ (ListRef.unmodifiable (ListRef.arrayList 1))
      (Or.inr ⟨0, rfl⟩) (fun a ha => by cases ha; decide)).2 (by decide)).2.1⟩

theorem preserves_set {M : Type} {n : Nat} {h0 st : Store M} (hp : Preserves n h0 st)
    (a : Nat) (x : List M) (ha : n ≤ a) : Preserves n h0 (st.set a x) := by
  refine ⟨by simpa using hp.1, fun b hb => ?_⟩
  rw [getD_set_other _ _ _ _ (by omega)]
  exact hp.2 b hb

theorem preserves_append {M : Type} {n : Nat} {h0 st : Store M} (hp : Preserves n h0 st)
    (l : Store M) : Preserves n h0 (st ++ l) := by
  refine ⟨by simp only [List.length_append]; have := hp.1; omega, fun b hb => ?_⟩
  rw [getD_append_old _ _ _ (by have := hp.1; omega)]
  exact hp.2 b hb

theorem listAdd_preserves {M : Type} {n : Nat} {h0 st : Store M} (hp : Preserves n h0 st)
    (r : ListRef) (hr : NoWriteBelow n r) (e : M) : Preserves n h0 (listAdd st r e).state := by
  cases r with
  | EMPTY_LIST => exact hp
  | arrayList a => exact preserves_set hp a _ hr
  | unmodifiable inner => exact hp

theorem listAddAll_preserves {M : Type} {n : Nat} {h0 st : Store M} (hp : Preserves n h0 st)
    (r : ListRef) (hr : NoWriteBelow n r) (c : List M) :
    Preserves n h0 (listAddAll st r c).state := by
  cases r with
  | EMPTY_LIST =>
    simp only [listAddAll]
    split <;> exact hp
  | arrayList a => exact preserves_set hp a _ hr
  | unmodifiable inner => exact hp

theorem listSet_preserves {M : Type} {n : Nat} {h0 st : Store M} (hp : Preserves n h0 st)
    (r : ListRef) (hr : NoWriteBelow n r) (index : Int) (e : M) :
    Preserves n h0 (listSet st r index e).state := by
  cases r with
  | EMPTY_LIST => exact hp
  | arrayList a =>
    simp only [listSet]
    split
    · exact preserves_set hp a _ hr
    · exact hp
  | unmodifiable inner => exact hp

/-- A statement that only writes the store keeps the field's reference. -/
theorem withStore_state (s : RepeatedField T) (o : Outcome (Store T.Msg)) :
    (withStore s o).state = { s with store := o.state } := by
  cases o <;> rfl

theorem allocateIfEmpty_preserves {n : Nat} {h0 : Store T.Msg} (t : RepeatedField T)
    (hp : Preserves n h0 t.store) (hr : NoWriteBelow n t.name_) :
    Preserves n h0 (allocateIfEmpty t).store ∧ NoWriteBelow n (allocateIfEmpty t).name_ := by
  unfold allocateIfEmpty
  split
  · exact ⟨preserves_append hp _, hp.1⟩
  · exact ⟨hp, hr⟩

/-- One call keeps the lists that existed at the build and gives the builder
no reference through which it could write to them. -/
theorem runOp_preserves {n : Nat} {h0 : Store T.Msg} (op : BuilderOp T) (t : RepeatedField T)
    (hp : Preserves n h0 t.store) (hr : NoWriteBelow n t.name_) :
    Preserves n h0 (runOp op t).state.store ∧ NoWriteBelow n (runOp op t).state.name_ := by
  cases op with
  | set index value =>
    simp only [runOp, set, withStore_state]
    exact ⟨listSet_preserves hp _ hr _ _, hr⟩
  | setFromBuilder index b =>
    simp only [runOp, setFromBuilder]
    cases T.build b with
    | none => exact ⟨hp, hr⟩
    | some v =>
      simp only [withStore_state]
      exact ⟨listSet_preserves hp _ hr _ _, hr⟩
  | add value =>
    obtain ⟨hp1, hr1⟩ := allocateIfEmpty_preserves t hp hr
    simp only [runOp, add, withStore_state]
    exact ⟨listAdd_preserves hp1 _ hr1 _, hr1⟩
  | addFromBuilder b =>
    obtain ⟨hp1, hr1⟩ := allocateIfEmpty_preserves t hp hr
    simp only [runOp, addFromBuilder]
    cases T.build b with
    | none => exact ⟨hp1, hr1⟩
    | some v =>
      simp only [withStore_state]
      exact ⟨listAdd_preserves hp1 _ hr1 _, hr1⟩
  | addAll values =>
    obtain ⟨hp1, hr1⟩ := allocateIfEmpty_preserves t hp hr
    simp only [runOp, addAll, superAddAll, withStore_state]
    exact ⟨listAddAll_preserves hp1 _ hr1 _, hr1⟩
  | clear => exact ⟨hp, trivial⟩
  | mergingCode other =>
    obtain ⟨hp1, hr1⟩ := allocateIfEmpty_preserves t hp hr
    simp only [runOp, mergingCode]
    split
    · simp only [withStore_state]
      exact ⟨listAddAll_preserves hp1 _ hr1 _, hr1⟩
    · exact ⟨hp, hr⟩
  | buildingCode =>
    simp only [runOp, buildingCode, Outcome.state]
    split
    · exact ⟨hp, trivial⟩
    · exact ⟨hp, hr⟩

theorem runOps_preserves {n : Nat} {h0 : Store T.Msg} (ops : List (BuilderOp T)) :
    ∀ t : RepeatedField T, Preserves n h0 t.store → NoWriteBelow n t.name_ →
      Preserves n h0 (runOps ops t).store := by
  induction ops with
  | nil => intro t hp _; exact hp
  | cons op ops ih =>
    intro t hp hr
    obtain ⟨hp1, hr1⟩ := runOp_preserves op t hp hr
    exact ih _ hp1 hr1

/-- C9: once the building code has run on a builder state and the built value
holds the reference it left in the field, no sequence of later builder calls
(positional `set`, `add`, `add` from a sub-builder, `addAll`, `clear`, the
merging code, the building code again), returning or throwing, changes the
element sequence seen through that reference: it stays the sequence the
builder had at the build. -/
theorem built_snapshot_unaffected_by_later_calls (s : RepeatedField T) (hs : Allocated s)
    (ops : List (BuilderOp T)) :
    contents (buildingCode s).store (builtSnapshot s) = elements s ∧
    contents (runOps ops (buildingCode s)).store (builtSnapshot s) = elements s := by
  have hroot : (builtSnapshot s).root = s.name_.root := by
    unfold builtSnapshot getList buildingCode
    split <;> rfl
  have hstore : (buildingCode s).store = s.store := by
    unfold buildingCode
    split <;> rfl
  have hfrozen : NoWriteBelow s.store.length (buildingCode s).name_ := by
    unfold buildingCode
    split
    · trivial
    · rename_i h
      have h' : s.name_ = ListRef.EMPTY_LIST := by simpa using h
      rw [h']
      trivial
  have hp0 : Preserves s.store.length s.store (buildingCode s).store := by
    rw [hstore]
    exact ⟨le_refl _, fun _ _ => rfl⟩
  have key : ∀ st : Store T.Msg, Preserves s.store.length s.store st →
      contents st (builtSnapshot s) = elements s := by
    intro st hp
    have e1 : contents st (builtSnapshot s) = contents s.store (builtSnapshot s) :=
      contents_eq_of_root _ _ _ (fun a ha => hp.2 a (hs a (by rw [← hroot]; exact ha)))
    rw [e1]
    unfold builtSnapshot getList buildingCode elements
    split
    · rfl
    · rename_i h
      have h' : s.name_ = ListRef.EMPTY_LIST := by simpa using h
      rw [h']
  exact ⟨key _ hp0, key _ (runOps_preserves ops _ hp0 hfrozen)⟩

/-- C9 at a concrete input: a builder holding `{x:1}, {x:2}` is built, then
cleared, appended to, written at position 0, merged into and built again; the
built value still shows `{x:1}, {x:2}`. -/
theorem built_snapshot_unaffected_by_later_calls_witness :
    Allocated (RepeatedField.mk [[child 1, child 2]] (ListRef.arrayList 0) :
      RepeatedField childType) ∧
    contents
      (runOps [BuilderOp.set 0 (child 9), BuilderOp.add (child 3), BuilderOp.clear,
          BuilderOp.addAll [child 4, child 5], BuilderOp.set 0 (child 6),
          BuilderOp.mergingCode (ListRef.unmodifiable (ListRef.arrayList 0)),
          BuilderOp.buildingCode]
        (buildingCode (RepeatedField.mk [[child 1, child 2]] (ListRef.arrayList 0) :
          RepeatedField childType))).store
      (builtSnapshot (RepeatedField.mk [[child 1, child 2]] (ListRef.arrayList 0) :
        RepeatedField childType))
      = [child 1, child 2] :=
  ⟨fun a ha => by cases ha; decide,
    (built_snapshot_unaffected_by_later_calls _ (fun a ha => by cases ha; decide) _).2⟩

/-- C10: after the building code has run, the view returned by the message's
list getter is `EMPTY_LIST` or an unmodifiable view, and `add`, `set` and
`remove` through it throw and leave the store as it was (as does `addAll`,
whether it throws or finds nothing to add); the same holds for the view
returned by the builder's list getter in any state. -/
theorem list_views_reject_mutation (s : RepeatedField T) (e : T.Msg) (index : Int)
    (c : List T.Msg) :
    (getList (buildingCode s) = ListRef.EMPTY_LIST ∨
      ∃ inner, getList (buildingCode s) = ListRef.unmodifiable inner) ∧
    (listAdd (buildingCode s).store (getList (buildingCode s)) e
        = Outcome.threw (buildingCode s).store ∧
      listSet (buildingCode s).store (getList (buildingCode s)) index e
        = Outcome.threw (buildingCode s).store ∧
      listRemove (buildingCode s).store (getList (buildingCode s)) index
        = Outcome.threw (buildingCode s).store ∧
      (listAddAll (buildingCode s).store (getList (buildingCode s)) c).state
        = (buildingCode s).store) ∧
    (listAdd s.store (builderGetList s) e = Outcome.threw s.store ∧
      listSet s.store (builderGetList s) index e = Outcome.threw s.store ∧
      listRemove s.store (builderGetList s) index = Outcome.threw s.store ∧
      (listAddAll s.store (builderGetList s) c).state = s.store) := by
  refine ⟨?_, ?_, ⟨rfl, rfl, rfl, rfl⟩⟩
  · unfold buildingCode getList
    by_cases h : s.name_ = ListRef.EMPTY_LIST
    · left; simp [h]
    · right; exact ⟨s.name_, by simp [h]⟩
  · unfold buildingCode getList
    by_cases h : s.name_ = ListRef.EMPTY_LIST
    · simp only [h, ne_eq, not_true_eq_false, if_false, listAdd, listSet, listRemove,
        listAddAll, true_and]
      split <;> rfl
    · simp [h, listAdd, listSet, listRemove, listAddAll, Outcome.state]

end RepeatedMessageFieldGenerator

/-! ## The emitted text: theorems -/

theorem string_append_left_cancel {a b c : String} (h : a ++ b = a ++ c) : b = c := by
  have h' := congrArg String.data h
  simp only [String.data_append] at h'
  exact String.ext (List.append_cancel_left h')

theorem string_append_right_cancel {a b c : String} (h : a ++ c = b ++ c) : a = b := by
  have h' := congrArg String.data h
  simp only [String.data_append] at h'
  exact String.ext (List.append_cancel_right h')

/-- The two read statements differ, whatever the number. -/
theorem readGroupStatement_ne (number : String) :
    readGroupStatement number ≠ readMessageStatement := by
  intro h
  have := congrArg (fun s => s.data.get? 10) h
  simp [readGroupStatement, readMessageStatement] at this

/-- A write statement names one routine. -/
theorem writeStatement_routine_ne (number value : String) :
    writeStatement "Group" number value ≠ writeStatement "Message" number value := by
  intro h
  have := congrArg (fun s => s.data.get? 12) h
  simp [writeStatement] at this

theorem computeSizeStatement_routine_ne (number value : String) :
    computeSizeStatement "Group" number value ≠ computeSizeStatement "Message" number value := by
  intro h
  have := congrArg (fun s => s.data.get? 63) h
  simp [computeSizeStatement] at this

theorem group_or_message_eq_group (d : FieldDescriptor) :
    group_or_message d = "Group" ↔ d.type = FieldType.TYPE_GROUP := by
  unfold group_or_message
  split <;> simp_all

theorem group_or_message_eq_message (d : FieldDescriptor) :
    group_or_message d = "Message" ↔ d.type ≠ FieldType.TYPE_GROUP := by
  unfold group_or_message
  split <;> simp_all

set_option maxRecDepth 100000 in
theorem singular_parsing_text (H : Helpers) (d : FieldDescriptor) :
    MessageFieldGenerator.GenerateParsingCode H d =
      singularParsingHead (H.ClassName d.message_type) (H.UnderscoresToCapitalizedCamelCase d)
      ++ (if d.type = FieldType.TYPE_GROUP then readGroupStatement (SimpleItoa d.number)
          else readMessageStatement)
      ++ singularParsingTail (H.UnderscoresToCapitalizedCamelCase d) := by
  unfold MessageFieldGenerator.GenerateParsingCode
  refine congrArg₂ (· ++ ·) (congrArg₂ (· ++ ·) ?_ ?_) ?_
  · simp only [singularParsingHead, hasGuard, String.append_assoc]
    rfl
  · simp only [readGroupStatement, readMessageStatement, String.append_assoc]
    rfl
  · simp only [singularParsingTail, String.append_assoc]
    rfl

set_option maxRecDepth 100000 in
theorem repeated_parsing_text (H : Helpers) (d : FieldDescriptor) :
    RepeatedMessageFieldGenerator.GenerateParsingCode H d =
      repeatedParsingHead (H.ClassName d.message_type)
      ++ (if d.type = FieldType.TYPE_GROUP then readGroupStatement (SimpleItoa d.number)
          else readMessageStatement)
      ++ repeatedParsingTail (H.UnderscoresToCapitalizedCamelCase d) := by
  unfold RepeatedMessageFieldGenerator.GenerateParsingCode
  refine congrArg₂ (· ++ ·) (congrArg₂ (· ++ ·) ?_ ?_) ?_
  · simp only [repeatedParsingHead, String.append_assoc]
    rfl
  · simp only [readGroupStatement, readMessageStatement, String.append_assoc]
    rfl
  · simp only [repeatedParsingTail, String.append_assoc]
    rfl

set_option maxRecDepth 100000 in
theorem singular_serialization_text (H : Helpers) (d : FieldDescriptor) :
    MessageFieldGenerator.GenerateSerializationCode H d =
      hasGuard (H.UnderscoresToCapitalizedCamelCase d)
      ++ writeStatement (group_or_message d) (SimpleItoa d.number)
          (getterCall (H.UnderscoresToCapitalizedCamelCase d))
      ++ "\x7d\r\n" := by
  simp only [hasGuard, writeStatement, getterCall, String.append_assoc]
  rfl

set_option maxRecDepth 100000 in
theorem singular_size_text (H : Helpers) (d : FieldDescriptor) :
    MessageFieldGenerator.GenerateSerializedSizeCode H d =
      hasGuard (H.UnderscoresToCapitalizedCamelCase d)
      ++ computeSizeStatement (group_or_message d) (SimpleItoa d.number)
          (getterCall (H.UnderscoresToCapitalizedCamelCase d))
      ++ "\x7d\r\n" := by
  simp only [hasGuard, computeSizeStatement, getterCall, String.append_assoc]
  rfl

set_option maxRecDepth 100000 in
theorem repeated_serialization_text (H : Helpers) (d : FieldDescriptor) :
    RepeatedMessageFieldGenerator.GenerateSerializationCode H d =
      elementLoop (H.ClassName d.message_type) (H.UnderscoresToCapitalizedCamelCase d)
      ++ writeStatement (group_or_message d) (SimpleItoa d.number) "element"
      ++ "\x7d\r\n" := by
  simp only [elementLoop, writeStatement, String.append_assoc]
  rfl

set_option maxRecDepth 100000 in
theorem repeated_size_text (H : Helpers) (d : FieldDescriptor) :
    RepeatedMessageFieldGenerator.GenerateSerializedSizeCode H d =
      elementLoop (H.ClassName d.message_type) (H.UnderscoresToCapitalizedCamelCase d)
      ++ computeSizeStatement (group_or_message d) (SimpleItoa d.number) "element"
      ++ "\x7d\r\n" := by
  simp only [elementLoop, computeSizeStatement, String.append_assoc]
  rfl

/-- A text built around the routine kind tells the two wire kinds apart. -/
theorem dispatch_text_iff (d : FieldDescriptor) (text a b : String) (g : String → String)
    (hne : g "Group" ≠ g "Message") (h : text = a ++ g (group_or_message d) ++ b) :
    (d.type = FieldType.TYPE_GROUP ↔ text = a ++ g "Group" ++ b) ∧
    (d.type ≠ FieldType.TYPE_GROUP ↔ text = a ++ g "Message" ++ b) := by
  by_cases ht : d.type = FieldType.TYPE_GROUP
  · have hg : group_or_message d = "Group" := (group_or_message_eq_group d).2 ht
    rw [hg] at h
    refine ⟨⟨fun _ => h, fun _ => ht⟩, ⟨fun hn => absurd ht hn, fun h' => ?_⟩⟩
    rw [h] at h'
    exact absurd (string_append_left_cancel (string_append_right_cancel h')) hne
  · have hg : group_or_message d = "Message" := (group_or_message_eq_message d).2 ht
    rw [hg] at h
    refine ⟨⟨fun hn => absurd hn ht, fun h' => ?_⟩, ⟨fun _ => h, fun _ => ht⟩⟩
    rw [h] at h'
    exact absurd (string_append_left_cancel (string_append_right_cancel h')).symm hne

/-- The read statement, chosen by the routine kind. -/
theorem read_statement_by_routine (d : FieldDescriptor) (number : String) :
    (if d.type = FieldType.TYPE_GROUP then readGroupStatement number else readMessageStatement)
      = (fun r : String => if r = "Group" then readGroupStatement number
          else readMessageStatement) (group_or_message d) := by
  by_cases ht : d.type = FieldType.TYPE_GROUP
  · simp [ht, group_or_message]
  · simp [ht, group_or_message]

/-- C14: for every field descriptor, `SetMessageVariables` on the empty table
of a generator gives the table with exactly the five keys `name`,
`capitalized_name`, `number`, `type`, `group_or_message`; `number` is the field
number in decimal, `type` the class name of the referenced message type, and
`group_or_message` is `Group` exactly when the field's type is `TYPE_GROUP` and
`Message` otherwise; the table is a function of the descriptor, a second call
on the table changes nothing, and the singular and the repeated generator hold
the same table. -/
theorem SetMessageVariables_binds_five_keys (H : Helpers) (d : FieldDescriptor) :
    SetMessageVariables H d [] =
      [("name", H.UnderscoresToCamelCase d),
       ("capitalized_name", H.UnderscoresToCapitalizedCamelCase d),
       ("number", SimpleItoa d.number),
       ("type", H.ClassName d.message_type),
       ("group_or_message", group_or_message d)] ∧
    (SetMessageVariables H d []).keys
      = ["name", "capitalized_name", "number", "type", "group_or_message"] ∧
    (∀ k : String, ((SetMessageVariables H d []).find k).isSome = true ↔
      k ∈ ["name", "capitalized_name", "number", "type", "group_or_message"]) ∧
    (SetMessageVariables H d []).find "number" = some (SimpleItoa d.number) ∧
    (∀ n : Nat, SimpleItoa (n : Int) = Nat.repr n) ∧
    SimpleItoa 15 = "15" ∧
    (SetMessageVariables H d []).find "type" = some (H.ClassName d.message_type) ∧
    ((SetMessageVariables H d []).find "group_or_message" = some "Group" ↔
      d.type = FieldType.TYPE_GROUP) ∧
    ((SetMessageVariables H d []).find "group_or_message" = some "Message" ↔
      d.type ≠ FieldType.TYPE_GROUP) ∧
    (∀ d' : FieldDescriptor, d' = d → SetMessageVariables H d' [] = SetMessageVariables H d []) ∧
    SetMessageVariables H d (SetMessageVariables H d []) = SetMessageVariables H d [] ∧
    MessageFieldGenerator.variables_ H d = RepeatedMessageFieldGenerator.variables_ H d := by
  have table : SetMessageVariables H d [] =
      [("name", H.UnderscoresToCamelCase d),
       ("capitalized_name", H.UnderscoresToCapitalizedCamelCase d),
       ("number", SimpleItoa d.number),
       ("type", H.ClassName d.message_type),
       ("group_or_message", group_or_message d)] := rfl
  refine ⟨table, ?_, ?_, ?_, ?_, ?_, ?_, ?_, ?_, ?_, ?_, rfl⟩
  · rw [table]; rfl
  · intro k
    rw [table]
    simp only [VarMap.find, List.mem_cons, List.mem_singleton, List.not_mem_nil, or_false]
    by_cases h1 : "name" = k
    · simp [h1.symm]
    by_cases h2 : "capitalized_name" = k
    · simp [h2.symm]
    by_cases h3 : "number" = k
    · simp [h3.symm]
    by_cases h4 : "type" = k
    · simp [h4.symm]
    by_cases h5 : "group_or_message" = k
    · simp [h5.symm]
    · simp [h1, h2, h3, h4, h5, Ne.symm h1, Ne.symm h2, Ne.symm h3, Ne.symm h4, Ne.symm h5]
  · rw [table]; rfl
  · intro n
    simp [SimpleItoa]
  · decide
  · rw [table]; rfl
  · rw [table]
    have : VarMap.find
        [("name", H.UnderscoresToCamelCase d),
         ("capitalized_name", H.UnderscoresToCapitalizedCamelCase d),
         ("number", SimpleItoa d.number),
         ("type", H.ClassName d.message_type),
         ("group_or_message", group_or_message d)] "group_or_message"
        = some (group_or_message d) := rfl
    rw [this, Option.some.injEq]
    exact group_or_message_eq_group d
  · rw [table]
    have : VarMap.find
        [("name", H.UnderscoresToCamelCase d),
         ("capitalized_name", H.UnderscoresToCapitalizedCamelCase d),
         ("number", SimpleItoa d.number),
         ("type", H.ClassName d.message_type),
         ("group_or_message", group_or_message d)] "group_or_message"
        = some (group_or_message d) := rfl
    rw [this, Option.some.injEq]
    exact group_or_message_eq_message d
  · intro d' h
    rw [h]
  · rw [table]; rfl

/-- C20: for every field descriptor and for both generators, the parsing text
is the head, the read statement and the tail, the read statement being
`readGroup` with the field number exactly when the field's type is
`TYPE_GROUP` and `readMessage` exactly when it is not; the serialization text
calls `writeGroup`, and the size text `computeGroupSize`, with that same
number exactly when the type is `TYPE_GROUP`, and `writeMessage` and
`computeMessageSize` with it exactly when it is not. -/
theorem wire_kind_dispatch_consistent (H : Helpers) (d : FieldDescriptor) :
    ((d.type = FieldType.TYPE_GROUP ↔
        MessageFieldGenerator.GenerateParsingCode H d =
          singularParsingHead (H.ClassName d.message_type)
              (H.UnderscoresToCapitalizedCamelCase d)
            ++ readGroupStatement (SimpleItoa d.number)
            ++ singularParsingTail (H.UnderscoresToCapitalizedCamelCase d)) ∧
      (d.type ≠ FieldType.TYPE_GROUP ↔
        MessageFieldGenerator.GenerateParsingCode H d =
          singularParsingHead (H.ClassName d.message_type)
              (H.UnderscoresToCapitalizedCamelCase d)
            ++ readMessageStatement
            ++ singularParsingTail (H.UnderscoresToCapitalizedCamelCase d))) ∧
    ((d.type = FieldType.TYPE_GROUP ↔
        MessageFieldGenerator.GenerateSerializationCode H d =
          hasGuard (H.UnderscoresToCapitalizedCamelCase d)
            ++ writeStatement "Group" (SimpleItoa d.number)
                (getterCall (H.UnderscoresToCapitalizedCamelCase d))
            ++ "\x7d\r\n") ∧
      (d.type ≠ FieldType.TYPE_GROUP ↔
        MessageFieldGenerator.GenerateSerializationCode H d =
          hasGuard (H.UnderscoresToCapitalizedCamelCase d)
            ++ writeStatement "Message" (SimpleItoa d.number)
                (getterCall (H.UnderscoresToCapitalizedCamelCase d))
            ++ "\x7d\r\n")) ∧
    ((d.type = FieldType.TYPE_GROUP ↔
        MessageFieldGenerator.GenerateSerializedSizeCode H d =
          hasGuard (H.UnderscoresToCapitalizedCamelCase d)
            ++ computeSizeStatement "Group" (SimpleItoa d.number)
                (getterCall (H.UnderscoresToCapitalizedCamelCase d))
            ++ "\x7d\r\n") ∧
      (d.type ≠ FieldType.TYPE_GROUP ↔
        MessageFieldGenerator.GenerateSerializedSizeCode H d =
          hasGuard (H.UnderscoresToCapitalizedCamelCase d)
            ++ computeSizeStatement "Message" (SimpleItoa d.number)
                (getterCall (H.UnderscoresToCapitalizedCamelCase d))
            ++ "\x7d\r\n")) ∧
    ((d.type = FieldType.TYPE_GROUP ↔
        RepeatedMessageFieldGenerator.GenerateParsingCode H d =
          repeatedParsingHead (H.ClassName d.message_type)
            ++ readGroupStatement (SimpleItoa d.number)
            ++ repeatedParsingTail (H.UnderscoresToCapitalizedCamelCase d)) ∧
      (d.type ≠ FieldType.TYPE_GROUP ↔
        RepeatedMessageFieldGenerator.GenerateParsingCode H d =
          repeatedParsingHead (H.ClassName d.message_type)
            ++ readMessageStatement
            ++ repeatedParsingTail (H.UnderscoresToCapitalizedCamelCase d))) ∧
    ((d.type = FieldType.TYPE_GROUP ↔
        RepeatedMessageFieldGenerator.GenerateSerializationCode H d =
          elementLoop (H.ClassName d.message_type) (H.UnderscoresToCapitalizedCamelCase d)
            ++ writeStatement "Group" (SimpleItoa d.number) "element"
            ++ "\x7d\r\n") ∧
      (d.type ≠ FieldType.TYPE_GROUP ↔
        RepeatedMessageFieldGenerator.GenerateSerializationCode H d =
          elementLoop (H.ClassName d.message_type) (H.UnderscoresToCapitalizedCamelCase d)
            ++ writeStatement "Message" (SimpleItoa d.number) "element"
            ++ "\x7d\r\n")) ∧
    ((d.type = FieldType.TYPE_GROUP ↔
        RepeatedMessageFieldGenerator.GenerateSerializedSizeCode H d =
          elementLoop (H.ClassName d.message_type) (H.UnderscoresToCapitalizedCamelCase d)
            ++ computeSizeStatement "Group" (SimpleItoa d.number) "element"
            ++ "\x7d\r\n") ∧
      (d.type ≠ FieldType.TYPE_GROUP ↔
        RepeatedMessageFieldGenerator.GenerateSerializedSizeCode H d =
          elementLoop (H.ClassName d.message_type) (H.UnderscoresToCapitalizedCamelCase d)
            ++ computeSizeStatement "Message" (SimpleItoa d.number) "element"
            ++ "\x7d\r\n")) := by
  have hread : (fun r : String => if r = "Group" then readGroupStatement (SimpleItoa d.number)
      else readMessageStatement) "Group" ≠
      (fun r : String => if r = "Group" then readGroupStatement (SimpleItoa d.number)
      else readMessageStatement) "Message" := by
    simpa using readGroupStatement_ne (SimpleItoa d.number)
  refine ⟨?_, ?_, ?_, ?_, ?_, ?_⟩
  · have h := singular_parsing_text H d
    rw [read_statement_by_routine] at h
    simpa using dispatch_text_iff d _ _ _
      (fun r : String => if r = "Group" then readGroupStatement (SimpleItoa d.number)
        else readMessageStatement) hread h
  · exact dispatch_text_iff d _ _ _ (fun r => writeStatement r _ _)
      (writeStatement_routine_ne _ _) (singular_serialization_text H d)
  · exact dispatch_text_iff d _ _ _ (fun r => computeSizeStatement r _ _)
      (computeSizeStatement_routine_ne _ _) (singular_size_text H d)
  · have h := repeated_parsing_text H d
    rw [read_statement_by_routine] at h
    simpa using dispatch_text_iff d _ _ _
      (fun r : String => if r = "Group" then readGroupStatement (SimpleItoa d.number)
        else readMessageStatement) hread h
  · exact dispatch_text_iff d _ _ _ (fun r => writeStatement r _ _)
      (writeStatement_routine_ne _ _) (repeated_serialization_text H d)
  · exact dispatch_text_iff d _ _ _ (fun r => computeSizeStatement r _ _)
      (computeSizeStatement_routine_ne _ _) (repeated_size_text H d)

/-! ## Parsing runs, promotion and freezing: theorems -/

namespace MessageFieldGenerator

/-- The parsing code is the read into the seeded sub-builder followed by `set…`. -/
theorem parsingCode_eq (T : MessageType) (d : FieldDescriptor) (s : SingularField T)
    (input : T.Input) :
    parsingCode d s input =
      (readOccurrence T d input
        (if s.has = true then T.mergeFrom T.newBuilder s.value_ else T.newBuilder)).map
        (fun p => (SingularField.mk true (T.buildPartial p.1), p.2)) := by
  unfold parsingCode readOccurrence
  simp only [hasField, getField, set]
  split <;> simp_all

/-- One run of the parsing code on an occurrence with content `c`, in a class
whose merge into the default content adds nothing, from a state holding an
object with content `v`. -/
theorem parsingCode_ofContent_present (C : Type) [DecidableEq C] (dflt : C) (m : C → C → C)
    (ini : C → Bool) (hid : ∀ c, m dflt c = c) (d : FieldDescriptor) (v c : C) :
    parsingCode (T := MessageType.ofContent C dflt m ini) d
        (SingularField.mk true (Ref.built v)) [some c]
      = some (SingularField.mk true (Ref.built (m v c)), []) := by
  rw [parsingCode_eq]
  unfold readOccurrence
  simp only [if_true, MessageType.ofContent, hid]
  split <;> rfl

/-- A run of the parsing code over occurrences with contents `cs`: the
contents are merged in from left to right. -/
theorem parseEach_ofContent_present (C : Type) [DecidableEq C] (dflt : C) (m : C → C → C)
    (ini : C → Bool) (hid : ∀ c, m dflt c = c) (d : FieldDescriptor) (cs : List C) :
    ∀ v : C,
      parseEach (T := MessageType.ofContent C dflt m ini) d (cs.map (fun c => [some c]))
          (SingularField.mk true (Ref.built v))
        = some (SingularField.mk true (Ref.built (cs.foldl m v))) := by
  induction cs with
  | nil => intro v; rfl
  | cons c cs ih =>
    intro v
    have hstep := parsingCode_ofContent_present C dflt m ini hid d v c
    simp only [List.map_cons, parseEach, hstep, List.foldl_cons]
    exact ih (m v c)

/-- C15: with presence true the parsing code commits what `buildPartial` gives
for the sub-builder that was seeded by `mergeFrom` with the current value and
then read into; with presence false it commits what it gives for a fresh
sub-builder read into; when the read throws nothing is committed; presence is
true after a commit.  So for a class whose merge into the default content adds
nothing, parsing occurrences with contents `c1 … ck` in a row from the fresh
state leaves the left-to-right merge of all of them: `{a:1}` then `{b:2}` leaves
`{a:1,b:2}`, not `{b:2}`. -/
theorem parsingCode_accumulates :
    (∀ (T : MessageType) (d : FieldDescriptor) (s : SingularField T) (input : T.Input),
      (s.has = true → parsingCode d s input =
        (readOccurrence T d input (T.mergeFrom T.newBuilder s.value_)).map
          (fun p => (SingularField.mk true (T.buildPartial p.1), p.2))) ∧
      (s.has = false → parsingCode d s input =
        (readOccurrence T d input T.newBuilder).map
          (fun p => (SingularField.mk true (T.buildPartial p.1), p.2))) ∧
      (∀ (s' : SingularField T) (input' : T.Input),
        parsingCode d s input = some (s', input') → s'.has = true)) ∧
    (∀ (C : Type) [DecidableEq C] (dflt : C) (m : C → C → C) (ini : C → Bool)
      (d : FieldDescriptor) (c : C) (cs : List C), (∀ x, m dflt x = x) →
      parseEach (T := MessageType.ofContent C dflt m ini) d ((c :: cs).map (fun x => [some x]))
          (init (MessageType.ofContent C dflt m ini))
        = some (SingularField.mk true (Ref.built ((c :: cs).foldl m dflt)))) ∧
    parseEach (T := subABType) childField
        [[some (SubAB.mk (some 1) none)], [some (SubAB.mk none (some 2))]] (init subABType)
      = some (SingularField.mk true (Ref.built (SubAB.mk (some 1) (some 2)))) ∧
    parseEach (T := subABType) childField
        [[some (SubAB.mk (some 1) none)], [some (SubAB.mk none (some 2))]] (init subABType)
      ≠ some (SingularField.mk true (Ref.built (SubAB.mk none (some 2)))) := by
  refine ⟨?_, ?_, ?_, ?_⟩
  · intro T d s input
    refine ⟨?_, ?_, ?_⟩
    · intro h
      rw [parsingCode_eq, if_pos h]
    · intro h
      rw [parsingCode_eq, if_neg (by simp [h])]
    · intro s' input' h
      rw [parsingCode_eq] at h
      simp only [Option.map_eq_some', Prod.mk.injEq] at h
      obtain ⟨p, _, hp, _⟩ := h
      rw [← hp]
  · intro C _ dflt m ini d c cs hid
    have hfirst : parsingCode (T := MessageType.ofContent C dflt m ini) d
        (init (MessageType.ofContent C dflt m ini)) [some c]
        = some (SingularField.mk true (Ref.built (m dflt c)), []) := by
      rw [parsingCode_eq]
      unfold readOccurrence
      simp only [init, MessageType.ofContent]
      split <;> rfl
    simp only [List.map_cons, parseEach, hfirst, List.foldl_cons]
    exact parseEach_ofContent_present C dflt m ini hid d cs (m dflt c)
  · decide
  · decide

end MessageFieldGenerator

namespace RepeatedMessageFieldGenerator

variable {T : MessageType}

/-- The opening statement of `add…` on a field that holds `EMPTY_LIST`. -/
theorem allocateIfEmpty_shared_empty (s : RepeatedField T) (h : s.name_ = ListRef.EMPTY_LIST) :
    allocateIfEmpty s =
      { store := s.store ++ [[]], name_ := ListRef.arrayList s.store.length } := by
  unfold allocateIfEmpty
  simp [listIsEmpty, h, contents, newArrayList]

/-- Writing the first elements into the list just allocated. -/
theorem set_new_list {M : Type} (h : Store M) (xs : List M) :
    (h ++ [[]]).set h.length (((h ++ [[]]).getD h.length []) ++ xs) = h ++ [xs] := by
  rw [getD_append_new]
  simp [List.set_append]

/-- C16, as stated, fails for the positional `set…`: on a builder whose field
holds the shared `EMPTY_LIST` both forms throw, allocate nothing and leave
`EMPTY_LIST` in the field. -/
theorem positional_set_on_shared_empty_allocates_nothing :
    set (init [] : RepeatedField childType) 0 (child 1)
      = Outcome.threw (init [] : RepeatedField childType) ∧
    setFromBuilder (init [] : RepeatedField childType) 0 (Child.mk (some 1))
      = Outcome.threw (init [] : RepeatedField childType) ∧
    (set (init [] : RepeatedField childType) 0 (child 1)).state.name_ = ListRef.EMPTY_LIST ∧
    (set (init [] : RepeatedField childType) 0 (child 1)).state.store = [] := by
  refine ⟨rfl, rfl, rfl, rfl⟩

/-- C16 (amended): on a builder whose field holds the shared `EMPTY_LIST`,
`add…`, `add…` from a sub-builder and `addAll…` first store a newly allocated
`ArrayList` in the field (its address is the next free one, and the lists that
existed are not written) and then append to it, `add…` from a sub-builder
whose `build()` throws leaving the new, empty list in the field; the
positional `set…`, in either form, allocates nothing: it throws and leaves the
field holding `EMPTY_LIST`. -/
theorem appends_allocate_on_shared_empty (s : RepeatedField T)
    (h : s.name_ = ListRef.EMPTY_LIST) (v : T.Msg) (vs : List T.Msg) (b : T.Builder)
    (index : Int) :
    add s v = Outcome.returned
      { store := s.store ++ [[v]], name_ := ListRef.arrayList s.store.length } ∧
    addAll s vs = Outcome.returned
      { store := s.store ++ [vs], name_ := ListRef.arrayList s.store.length } ∧
    (T.build b = some v → addFromBuilder s b = Outcome.returned
      { store := s.store ++ [[v]], name_ := ListRef.arrayList s.store.length }) ∧
    (T.build b = none → addFromBuilder s b = Outcome.threw
      { store := s.store ++ [[]], name_ := ListRef.arrayList s.store.length }) ∧
    set s index v = Outcome.threw s ∧
    setFromBuilder s index b = Outcome.threw s ∧
    (set s index v).state.name_ = ListRef.EMPTY_LIST ∧
    (setFromBuilder s index b).state.name_ = ListRef.EMPTY_LIST := by
  have hadd : add s v = Outcome.returned
      { store := s.store ++ [[v]], name_ := ListRef.arrayList s.store.length } := by
    simp only [add, allocateIfEmpty_shared_empty s h, listAdd, withStore]
    rw [set_new_list]
  have hset : set s index v = Outcome.threw s := by
    simp only [set, h, listSet, withStore]
    cases s
    simp_all
  have hsetb : setFromBuilder s index b = Outcome.threw s := by
    unfold setFromBuilder
    cases T.build b with
    | none => rfl
    | some w =>
      simp only [h, listSet, withStore]
      cases s
      simp_all
  refine ⟨hadd, ?_, ?_, ?_, hset, hsetb, ?_, ?_⟩
  · simp only [addAll, superAddAll, allocateIfEmpty_shared_empty s h, listAddAll, withStore]
    rw [set_new_list]
  · intro hb
    simp only [addFromBuilder, hb, allocateIfEmpty_shared_empty s h, listAdd, withStore]
    rw [set_new_list]
  · intro hb
    simp only [addFromBuilder, hb, allocateIfEmpty_shared_empty s h]
  · rw [hset]; exact h
  · rw [hsetb]; exact h

/-- C16 (amended) at a concrete input: the fresh builder of `Child` elements. -/
theorem appends_allocate_on_shared_empty_witness :
    (init [] : RepeatedField childType).name_ = ListRef.EMPTY_LIST ∧
    add (init [] : RepeatedField childType) (child 1)
      = Outcome.returned { store := [[child 1]], name_ := ListRef.arrayList 0 } ∧
    set (init [] : RepeatedField childType) 0 (child 1)
      = Outcome.threw (init [] : RepeatedField childType) :=
  ⟨rfl,
    (appends_allocate_on_shared_empty (init [] : RepeatedField childType) rfl (child 1)
      [] (Child.mk none) 0).1,
    (appends_allocate_on_shared_empty (init [] : RepeatedField childType) rfl (child 1)
      [] (Child.mk none) 0).2.2.2.2.1⟩

/-- The store after `add…`: as after its opening statement, up to the write. -/
theorem add_store_length (s : RepeatedField T) (v : T.Msg) :
    (add s v).state.store.length = (allocateIfEmpty s).store.length := by
  simp only [add, withStore_state]
  cases (allocateIfEmpty s).name_ with
  | EMPTY_LIST => rfl
  | arrayList a => simp [listAdd, Outcome.state]
  | unmodifiable inner => rfl

theorem addAll_store_length (s : RepeatedField T) (vs : List T.Msg) :
    (addAll s vs).state.store.length = (allocateIfEmpty s).store.length := by
  simp only [addAll, superAddAll, withStore_state]
  cases (allocateIfEmpty s).name_ with
  | EMPTY_LIST =>
    simp only [listAddAll]
    split <;> rfl
  | arrayList a => simp [listAddAll, Outcome.state]
  | unmodifiable inner => rfl

theorem allocateIfEmpty_store_length (s : RepeatedField T) :
    (allocateIfEmpty s).store.length = s.store.length + 1 ↔
      listIsEmpty s.store s.name_ = true := by
  unfold allocateIfEmpty
  by_cases h : listIsEmpty s.store s.name_ = true
  · simp [h, newArrayList]
  · simp [h]

/-- C17, as stated, fails in the state reached from the fresh builder by
`addAll…` with an empty argument: the field holds an empty `ArrayList`, not the
shared `EMPTY_LIST`, so the building code's identity test takes it for a list to
wrap, yet `add…`, testing `isEmpty()`, allocates again. -/
theorem emptiness_and_identity_tests_disagree :
    (addAll (init [] : RepeatedField childType) []).state.name_ = ListRef.arrayList 0 ∧
    (addAll (init [] : RepeatedField childType) []).state.name_ ≠ ListRef.EMPTY_LIST ∧
    listIsEmpty (addAll (init [] : RepeatedField childType) []).state.store
      (addAll (init [] : RepeatedField childType) []).state.name_ = true ∧
    Allocates (addAll (init [] : RepeatedField childType) []).state (child 1) ∧
    (add (addAll (init [] : RepeatedField childType) []).state (child 1)).state.name_
      = ListRef.arrayList 1 ∧
    (buildingCode (addAll (init [] : RepeatedField childType) []).state).name_
      = ListRef.unmodifiable (ListRef.arrayList 0) := by
  refine ⟨rfl, by decide, rfl, rfl, rfl, rfl⟩

/-- C17 (amended): promotion is decided by emptiness.  In every state, reachable
or not, `add…` and `addAll…` allocate an `ArrayList` if and only if
`result.$name$_.isEmpty()` holds; that is so whenever the field holds the shared
`EMPTY_LIST`, which the building code then leaves alone; and the emptiness test
and the identity test of the building code give different answers exactly when
the field holds an empty list other than `EMPTY_LIST`. -/
theorem promotion_decided_by_emptiness (s : RepeatedField T) (v : T.Msg) (vs : List T.Msg) :
    (Allocates s v ↔ listIsEmpty s.store s.name_ = true) ∧
    ((addAll s vs).state.store.length = s.store.length + 1 ↔
      listIsEmpty s.store s.name_ = true) ∧
    (s.name_ = ListRef.EMPTY_LIST → listIsEmpty s.store s.name_ = true ∧ Allocates s v) ∧
    (s.name_ = ListRef.EMPTY_LIST → buildingCode s = s) ∧
    (s.name_ ≠ ListRef.EMPTY_LIST → (buildingCode s).name_ = ListRef.unmodifiable s.name_) ∧
    (¬ (listIsEmpty s.store s.name_ = true ↔ s.name_ = ListRef.EMPTY_LIST) ↔
      (s.name_ ≠ ListRef.EMPTY_LIST ∧ elements s = [])) := by
  have hall : Allocates s v ↔ listIsEmpty s.store s.name_ = true := by
    unfold Allocates
    rw [add_store_length]
    exact allocateIfEmpty_store_length s
  have hempty : s.name_ = ListRef.EMPTY_LIST → listIsEmpty s.store s.name_ = true := by
    intro h
    simp [listIsEmpty, h, contents]
  refine ⟨hall, ?_, fun h => ⟨hempty h, hall.2 (hempty h)⟩, ?_, ?_, ?_⟩
  · rw [addAll_store_length]
    exact allocateIfEmpty_store_length s
  · intro h
    simp [buildingCode, h]
  · intro h
    simp [buildingCode, h]
  · have hiff : listIsEmpty s.store s.name_ = true ↔ elements s = [] := by
      simp [listIsEmpty, elements]
    constructor
    · intro hne
      by_cases h : s.name_ = ListRef.EMPTY_LIST
      · exact absurd ⟨fun _ => h, fun _ => hempty h⟩ hne
      · refine ⟨h, ?_⟩
        by_contra hc
        exact hne ⟨fun he => absurd (hiff.1 he) hc, fun he => absurd he h⟩
    · rintro ⟨h, he⟩ hcon
      exact h (hcon.1 (hiff.2 he))

/-- A call on one builder leaves the fields of the others as they are. -/
theorem callOn_other_field (w : Builders T) (i j : Nat) (op : BuilderOp T) (hij : i ≠ j) :
    (callOn w i op).fields[j]? = w.fields[j]? := by
  unfold callOn
  split
  · simp [List.getElem?_set, hij]
  · rfl

theorem runCalls_other_field (calls : List (Nat × BuilderOp T)) (j : Nat) :
    ∀ w : Builders T, (∀ c ∈ calls, c.1 ≠ j) →
      (runCalls calls w).fields[j]? = w.fields[j]? := by
  induction calls with
  | nil => intro w _; rfl
  | cons c calls ih =>
    intro w h
    obtain ⟨i, op⟩ := c
    simp only [runCalls]
    rw [ih _ (fun c hc => h c (List.mem_cons_of_mem _ hc))]
    exact callOn_other_field w i j op (h (i, op) (List.mem_cons_self _ _))

theorem listAdd_frame {M : Type} (h : Store M) (r : ListRef) (e : M) (b : Nat)
    (hr : r.root ≠ some b) :
    (listAdd h r e).state.getD b [] = h.getD b [] ∧ (listAdd h r e).state.length = h.length := by
  cases r with
  | EMPTY_LIST => exact ⟨rfl, rfl⟩
  | arrayList a =>
    exact ⟨getD_set_other _ _ _ _ (fun e' => hr (by rw [e']; rfl)), by simp [listAdd, Outcome.state]⟩
  | unmodifiable inner => exact ⟨rfl, rfl⟩

theorem listAddAll_frame {M : Type} (h : Store M) (r : ListRef) (c : List M) (b : Nat)
    (hr : r.root ≠ some b) :
    (listAddAll h r c).state.getD b [] = h.getD b [] ∧
      (listAddAll h r c).state.length = h.length := by
  cases r with
  | EMPTY_LIST =>
    simp only [listAddAll]
    split <;> exact ⟨rfl, rfl⟩
  | arrayList a =>
    exact ⟨getD_set_other _ _ _ _ (fun e' => hr (by rw [e']; rfl)),
      by simp [listAddAll, Outcome.state]⟩
  | unmodifiable inner => exact ⟨rfl, rfl⟩

theorem listSet_frame {M : Type} (h : Store M) (r : ListRef) (index : Int) (e : M) (b : Nat)
    (hr : r.root ≠ some b) :
    (listSet h r index e).state.getD b [] = h.getD b [] ∧
      (listSet h r index e).state.length = h.length := by
  cases r with
  | EMPTY_LIST => exact ⟨rfl, rfl⟩
  | arrayList a =>
    simp only [listSet]
    split
    · exact ⟨getD_set_other _ _ _ _ (fun e' => hr (by rw [e']; rfl)), by simp [Outcome.state]⟩
    · exact ⟨rfl, rfl⟩
  | unmodifiable inner => exact ⟨rfl, rfl⟩

/-- The opening statement of the appending members reads and writes no list
that existed and that the field does not refer to. -/
theorem allocateIfEmpty_frame (s : RepeatedField T) (b : Nat) (hb : b < s.store.length)
    (hr : s.name_.root ≠ some b) :
    (allocateIfEmpty s).store.getD b [] = s.store.getD b [] ∧
    b < (allocateIfEmpty s).store.length ∧
    (allocateIfEmpty s).name_.root ≠ some b := by
  unfold allocateIfEmpty
  split
  · refine ⟨getD_append_old _ _ _ hb, by simp [newArrayList]; omega, ?_⟩
    simp only [newArrayList, ListRef.root, ne_eq, Option.some.injEq]
    omega
  · exact ⟨rfl, hb, hr⟩

/-- One call on a builder writes no list that existed and that its field does
not refer to, and leaves the field referring to no such list. -/
theorem runOp_frame (op : BuilderOp T) (s : RepeatedField T) (b : Nat)
    (hb : b < s.store.length) (hr : s.name_.root ≠ some b) :
    (runOp op s).state.store.getD b [] = s.store.getD b [] ∧
    b < (runOp op s).state.store.length ∧
    (runOp op s).state.name_.root ≠ some b := by
  obtain ⟨g1, l1, r1⟩ := allocateIfEmpty_frame s b hb hr
  cases op with
  | set index value =>
    simp only [runOp, set, withStore_state]
    obtain ⟨g, l⟩ := listSet_frame s.store s.name_ index value b hr
    exact ⟨g, by rw [l]; exact hb, hr⟩
  | setFromBuilder index bld =>
    simp only [runOp, setFromBuilder]
    cases T.build bld with
    | none => exact ⟨rfl, hb, hr⟩
    | some v =>
      simp only [withStore_state]
      obtain ⟨g, l⟩ := listSet_frame s.store s.name_ index v b hr
      exact ⟨g, by rw [l]; exact hb, hr⟩
  | add value =>
    simp only [runOp, add, withStore_state]
    obtain ⟨g, l⟩ := listAdd_frame (allocateIfEmpty s).store (allocateIfEmpty s).name_ value b r1
    exact ⟨by rw [g, g1], by rw [l]; exact l1, r1⟩
  | addFromBuilder bld =>
    simp only [runOp, addFromBuilder]
    cases T.build bld with
    | none => exact ⟨g1, l1, r1⟩
    | some v =>
      simp only [withStore_state]
      obtain ⟨g, l⟩ := listAdd_frame (allocateIfEmpty s).store (allocateIfEmpty s).name_ v b r1
      exact ⟨by rw [g, g1], by rw [l]; exact l1, r1⟩
  | addAll values =>
    simp only [runOp, addAll, superAddAll, withStore_state]
    obtain ⟨g, l⟩ :=
      listAddAll_frame (allocateIfEmpty s).store (allocateIfEmpty s).name_ values b r1
    exact ⟨by rw [g, g1], by rw [l]; exact l1, r1⟩
  | clear =>
    refine ⟨rfl, hb, ?_⟩
    simp [runOp, clear, Outcome.state, ListRef.root]
  | mergingCode other =>
    simp only [runOp, mergingCode]
    split
    · simp only [withStore_state]
      obtain ⟨g, l⟩ := listAddAll_frame (allocateIfEmpty s).store (allocateIfEmpty s).name_
        (contents (allocateIfEmpty s).store other) b r1
      exact ⟨by rw [g, g1], by rw [l]; exact l1, r1⟩
    · exact ⟨rfl, hb, hr⟩
  | buildingCode =>
    simp only [runOp, buildingCode, Outcome.state]
    split
    · exact ⟨rfl, hb, hr⟩
    · exact ⟨rfl, hb, hr⟩

/-- A call on one builder writes no list that only other builders refer to. -/
theorem callOn_frame (w : Builders T) (i j : Nat) (op : BuilderOp T) (hij : i ≠ j) (a : Nat)
    (ha : a < w.store.length)
    (hsep : ∀ (k : Nat) (r : ListRef), k ≠ j → w.fields[k]? = some r → r.root ≠ some a) :
    (callOn w i op).store.getD a [] = w.store.getD a [] ∧
    a < (callOn w i op).store.length ∧
    (∀ (k : Nat) (r : ListRef), k ≠ j → (callOn w i op).fields[k]? = some r →
      r.root ≠ some a) := by
  unfold callOn
  cases hf : w.fields[i]? with
  | none => exact ⟨rfl, ha, hsep⟩
  | some r0 =>
    obtain ⟨g, l, hr⟩ :=
      runOp_frame op { store := w.store, name_ := r0 } a ha (hsep i r0 hij hf)
    refine ⟨g, l, fun k r hk hkr => ?_⟩
    simp only [List.getElem?_set] at hkr
    by_cases hik : i = k
    · simp only [hik, if_true] at hkr
      split at hkr
      · simp only [Option.some.injEq] at hkr
        rw [← hkr]
        exact hr
      · simp at hkr
    · simp only [hik, if_false] at hkr
      exact hsep k r hk hkr

theorem runCalls_frame (calls : List (Nat × BuilderOp T)) (j a : Nat) :
    ∀ w : Builders T, (∀ c ∈ calls, c.1 ≠ j) → a < w.store.length →
      (∀ (k : Nat) (r : ListRef), k ≠ j → w.fields[k]? = some r → r.root ≠ some a) →
      (runCalls calls w).store.getD a [] = w.store.getD a [] := by
  induction calls with
  | nil => intro w _ _ _; rfl
  | cons c calls ih =>
    intro w h ha hsep
    obtain ⟨i, op⟩ := c
    obtain ⟨g, l, hsep'⟩ :=
      callOn_frame w i j op (h (i, op) (List.mem_cons_self _ _)) a ha hsep
    simp only [runCalls]
    rw [ih _ (fun c hc => h c (List.mem_cons_of_mem _ hc)) l hsep', g]

/-- On an unbuilt field the merging code returns. -/
theorem mergingCode_unbuilt_returned (s : RepeatedField T) (hs : Unbuilt s) (other : ListRef) :
    (mergingCode s other).isReturned = true := by
  unfold mergingCode
  split
  · obtain ⟨a, ha, _, _⟩ := allocateIfEmpty_unbuilt s hs
    simp only [ha, listAddAll, withStore, Outcome.isReturned]
  · rfl

/-- C18: the shared `EMPTY_LIST` is never written.  After every sequence of
calls (positional `set…`, `add…`, `addAll…`, the merging code, `clear…`, the
building code) on any number of builders over one store it still has length 0.
It is kept out of reach by the promotion: the list `add…`, `addAll…` and the
merging code write to is never `EMPTY_LIST`; on a field that holds it they
return, having put the elements in a newly allocated list, and on any unbuilt
field they return; only the positional `set…` addresses it, and is thrown out
with nothing changed.  And what the field of another message shows, be it
fresh, cleared or holding a list of its own, is not changed by calls on other
builders. -/
theorem shared_empty_never_mutated (w : Builders T) (calls : List (Nat × BuilderOp T)) :
    listSize (runCalls calls w).store ListRef.EMPTY_LIST = 0 ∧
    (∀ s : RepeatedField T, (allocateIfEmpty s).name_ ≠ ListRef.EMPTY_LIST) ∧
    (∀ (s : RepeatedField T) (v : T.Msg) (vs : List T.Msg) (other : ListRef),
      s.name_ = ListRef.EMPTY_LIST →
      add s v = Outcome.returned
        { store := s.store ++ [[v]], name_ := ListRef.arrayList s.store.length } ∧
      addAll s vs = Outcome.returned
        { store := s.store ++ [vs], name_ := ListRef.arrayList s.store.length } ∧
      (contents s.store other ≠ [] →
        mergingCode s other = Outcome.returned
          { store := s.store ++ [contents s.store other],
            name_ := ListRef.arrayList s.store.length })) ∧
    (∀ (s : RepeatedField T) (v : T.Msg) (vs : List T.Msg) (other : ListRef),
      Unbuilt s →
      (add s v).isReturned = true ∧ (addAll s vs).isReturned = true ∧
      (mergingCode s other).isReturned = true) ∧
    (∀ (s : RepeatedField T) (index : Int) (v : T.Msg),
      s.name_ = ListRef.EMPTY_LIST → set s index v = Outcome.threw s) ∧
    (∀ (j : Nat) (r : ListRef), w.fields[j]? = some r → (∀ c ∈ calls, c.1 ≠ j) →
      (∀ a, r.root = some a → a < w.store.length ∧
        ∀ (k : Nat) (r' : ListRef), k ≠ j → w.fields[k]? = some r' → r'.root ≠ some a) →
      (runCalls calls w).fields[j]? = some r ∧
      contents (runCalls calls w).store r = contents w.store r) ∧
    (∀ j : Nat, w.fields[j]? = some ListRef.EMPTY_LIST → (∀ c ∈ calls, c.1 ≠ j) →
      (runCalls calls w).fields[j]? = some ListRef.EMPTY_LIST ∧
      getCount (RepeatedField.mk (T := T) (runCalls calls w).store ListRef.EMPTY_LIST) = 0) := by
  refine ⟨rfl, ?_, ?_, ?_, ?_, ?_, ?_⟩
  · intro s
    unfold allocateIfEmpty
    by_cases he : listIsEmpty s.store s.name_ = true
    · simp [he, newArrayList]
    · rw [if_neg he]
      intro h
      apply he
      simp [listIsEmpty, h, contents]
  · intro s v vs other h
    refine ⟨?_, ?_, ?_⟩
    · simp only [add, allocateIfEmpty_shared_empty s h, listAdd, withStore]
      rw [set_new_list]
    · simp only [addAll, superAddAll, allocateIfEmpty_shared_empty s h, listAddAll, withStore]
      rw [set_new_list]
    · intro hne
      have hempty : listIsEmpty s.store other = false := by
        simpa [listIsEmpty] using hne
      obtain ⟨a, ha, halt⟩ := root_of_contents_ne_nil s.store other hne
      have hys : contents (s.store ++ [[]]) other = contents s.store other :=
        contents_eq_of_root _ _ _ (fun c hc => by
          rw [ha] at hc
          cases hc
          exact getD_append_old _ _ _ halt)
      simp only [mergingCode, hempty, Bool.not_false, if_true,
        allocateIfEmpty_shared_empty s h, listAddAll, withStore, hys]
      rw [set_new_list]
  · intro s v vs other hs
    exact ⟨(add_unbuilt s hs v).1, (addAll_unbuilt s hs vs).1,
      mergingCode_unbuilt_returned s hs other⟩
  · intro s index v h
    simp only [set, h, listSet, withStore]
    cases s
    simp_all
  · intro j r hw hj hsep
    refine ⟨by rw [runCalls_other_field calls j w hj]; exact hw, ?_⟩
    exact contents_eq_of_root _ _ _ (fun a ha =>
      runCalls_frame calls j a w hj (hsep a ha).1 (hsep a ha).2)
  · intro j hw hj
    rw [runCalls_other_field calls j w hj]
    exact ⟨hw, rfl⟩

/-- C19, as stated, fails on the second run: the building code run again on a
frozen field applies `unmodifiableList` once more and stores a view of the
view. -/
theorem second_build_wraps_again :
    (buildingCode (RepeatedField.mk [[child 1]] (ListRef.arrayList 0) :
      RepeatedField childType)).name_ = ListRef.unmodifiable (ListRef.arrayList 0) ∧
    (buildingCode (buildingCode (RepeatedField.mk [[child 1]] (ListRef.arrayList 0) :
      RepeatedField childType))).name_
      = ListRef.unmodifiable (ListRef.unmodifiable (ListRef.arrayList 0)) ∧
    (buildingCode (buildingCode (RepeatedField.mk [[child 1]] (ListRef.arrayList 0) :
      RepeatedField childType))).name_
      ≠ (buildingCode (RepeatedField.mk [[child 1]] (ListRef.arrayList 0) :
      RepeatedField childType)).name_ := by
  refine ⟨rfl, rfl, by decide⟩

/-- C19 (amended): if the field holds the shared `EMPTY_LIST` the building code
leaves the state as it is, on the first run and on any later one; otherwise it
stores an unmodifiable view of the list, with the same elements in the same
order and the store unchanged; run a second time on such a state it stores a
view of that view: the reference in the field changes, the elements seen and
the rejection of writes through it do not. -/
theorem buildingCode_freezes (s : RepeatedField T) (e : T.Msg) :
    (s.name_ = ListRef.EMPTY_LIST →
      buildingCode s = s ∧ buildingCode (buildingCode s) = s) ∧
    (s.name_ ≠ ListRef.EMPTY_LIST →
      buildingCode s = { s with name_ := ListRef.unmodifiable s.name_ } ∧
      buildingCode (buildingCode s)
        = { s with name_ := ListRef.unmodifiable (ListRef.unmodifiable s.name_) }) ∧
    elements (buildingCode s) = elements s ∧
    (buildingCode s).store = s.store ∧
    elements (buildingCode (buildingCode s)) = elements (buildingCode s) ∧
    (buildingCode (buildingCode s)).store = (buildingCode s).store ∧
    listAdd (buildingCode (buildingCode s)).store (getList (buildingCode (buildingCode s))) e
      = Outcome.threw (buildingCode (buildingCode s)).store := by
  by_cases h : s.name_ = ListRef.EMPTY_LIST
  · have h1 : buildingCode s = s := by simp [buildingCode, h]
    refine ⟨fun _ => ⟨h1, by rw [h1, h1]⟩, fun hn => absurd h hn, ?_, ?_, ?_, ?_, ?_⟩
    · rw [h1]
    · rw [h1]
    · rw [h1, h1]
    · rw [h1, h1]
    · rw [h1, h1]
      simp [getList, h, listAdd]
  · have h1 : buildingCode s = { s with name_ := ListRef.unmodifiable s.name_ } := by
      simp [buildingCode, h]
    have h2 : buildingCode (buildingCode s)
        = { s with name_ := ListRef.unmodifiable (ListRef.unmodifiable s.name_) } := by
      rw [h1]
      simp [buildingCode]
    refine ⟨fun he => absurd he h, fun _ => ⟨h1, h2⟩, ?_, ?_, ?_, ?_, ?_⟩
    · rw [h1]; rfl
    · rw [h1]
    · rw [h2, h1]; rfl
    · rw [h2, h1]
    · rw [h2]; rfl

/-- The parsing code is the read into a fresh sub-builder followed by `add…`. -/
theorem repeated_parsingCode_eq (d : FieldDescriptor) (s : RepeatedField T) (input : T.Input) :
    parsingCode d s input =
      (readOccurrence T d input T.newBuilder).map
        (fun p => (add s (T.buildPartial p.1), p.2)) := by
  unfold parsingCode readOccurrence
  simp only
  split <;> simp_all

/-- On an unbuilt field `add…` returns, the field is unbuilt afterwards and the
element is the last one. -/
theorem add_unbuilt_returned (s : RepeatedField T) (hs : Unbuilt s) (v : T.Msg) :
    ∃ s', add s v = Outcome.returned s' ∧ Unbuilt s' ∧ elements s' = elements s ++ [v] := by
  obtain ⟨a, ha, hlt, hc⟩ := allocateIfEmpty_unbuilt s hs
  refine ⟨{ store := (allocateIfEmpty s).store.set a ((allocateIfEmpty s).store.getD a [] ++ [v]),
            name_ := .arrayList a }, ?_, Or.inr ⟨a, rfl⟩, ?_⟩
  · simp only [add, ha, listAdd, withStore]
  · simp only [elements, contents]
    rw [getD_set_self _ _ _ hlt, hc]
    rfl

theorem decodeEach_length (d : FieldDescriptor) (inputs : List T.Input) :
    ∀ ds, decodeEach T d inputs = some ds → ds.length = inputs.length := by
  induction inputs with
  | nil =>
    intro ds h
    simp only [decodeEach, Option.some.injEq] at h
    rw [← h]
    rfl
  | cons input rest ih =>
    intro ds h
    unfold decodeEach at h
    cases hr : readOccurrence T d input T.newBuilder with
    | none => simp [hr] at h
    | some p =>
      cases hd : decodeEach T d rest with
      | none => simp [hr, hd] at h
      | some ds' =>
        simp only [hr, hd, Option.some.injEq] at h
        rw [← h, List.length_cons, List.length_cons, ih ds' hd]

/-- The run of the parsing code against the occurrences decoded one by one. -/
theorem parseEach_decodeEach (d : FieldDescriptor) (inputs : List T.Input) :
    ∀ s : RepeatedField T, Unbuilt s →
      (∀ ds, decodeEach T d inputs = some ds →
        ∃ s', parseEach d inputs s = some s' ∧ Unbuilt s' ∧ elements s' = elements s ++ ds) ∧
      (decodeEach T d inputs = none → parseEach d inputs s = none) := by
  induction inputs with
  | nil =>
    intro s hs
    refine ⟨fun ds h => ?_, fun h => ?_⟩
    · simp only [decodeEach, Option.some.injEq] at h
      exact ⟨s, rfl, hs, by rw [← h]; simp⟩
    · simp [decodeEach] at h
  | cons input rest ih =>
    intro s hs
    cases hr : readOccurrence T d input T.newBuilder with
    | none =>
      refine ⟨fun ds h => ?_, fun _ => ?_⟩
      · simp [decodeEach, hr] at h
      · simp [parseEach, repeated_parsingCode_eq, hr]
    | some p =>
      obtain ⟨s1, h1, hu1, he1⟩ := add_unbuilt_returned s hs (T.buildPartial p.1)
      have hp : parseEach d (input :: rest) s = parseEach d rest s1 := by
        simp [parseEach, repeated_parsingCode_eq, hr, h1]
      obtain ⟨ihs, ihn⟩ := ih s1 hu1
      refine ⟨fun ds h => ?_, fun h => ?_⟩
      · cases hd : decodeEach T d rest with
        | none => simp [decodeEach, hr, hd] at h
        | some ds' =>
          simp only [decodeEach, hr, hd, Option.some.injEq] at h
          obtain ⟨s', hs', hu', he'⟩ := ihs ds' hd
          refine ⟨s', by rw [hp, hs'], hu', ?_⟩
          rw [he', he1, ← h]
          simp
      · rw [hp]
        apply ihn
        cases hd : decodeEach T d rest with
        | none => rfl
        | some ds' => simp [decodeEach, hr, hd] at h

/-- C11: starting from an unbuilt builder with elements `xs`, running the
parsing code once for each of N wire occurrences, each of which decodes on its
own, into a fresh sub-builder, to `d1 … dN`, returns with elements
`xs ++ [d1, …, dN]`, in the order met: the count grows by N and every position
below the old count holds the element it held.  When one of the occurrences is
malformed the run throws. -/
theorem parseEach_appends_decoded (d : FieldDescriptor) (s : RepeatedField T) (hs : Unbuilt s)
    (inputs : List T.Input) :
    (∀ ds, decodeEach T d inputs = some ds →
      ∃ s', parseEach d inputs s = some s' ∧
        elements s' = elements s ++ ds ∧
        ds.length = inputs.length ∧
        getCount s' = getCount s + inputs.length ∧
        ∀ i : Nat, i < getCount s → get s' (i : Int) = get s (i : Int)) ∧
    (decodeEach T d inputs = none → parseEach d inputs s = none) := by
  obtain ⟨hsome, hnone⟩ := parseEach_decodeEach d inputs s hs
  refine ⟨fun ds h => ?_, hnone⟩
  obtain ⟨s', hs', _, he⟩ := hsome ds h
  have hl := decodeEach_length d inputs ds h
  refine ⟨s', hs', he, hl, ?_, fun i hi => get_of_elements_append _ _ _ he i hi⟩
  show (elements s').length = (elements s).length + inputs.length
  rw [he, List.length_append, hl]

/-- C11 at a concrete input: two occurrences, with contents `{x:1}` and `{x:2}`,
parsed into the fresh builder of `Child` elements. -/
theorem parseEach_appends_decoded_witness :
    Unbuilt (init [] : RepeatedField childType) ∧
    ∃ s', parseEach (T := childType) childField
        [[some (Child.mk (some 1))], [some (Child.mk (some 2))]] (init []) = some s' ∧
      elements s' = elements (init [] : RepeatedField childType) ++ [child 1, child 2] ∧
      [child 1, child 2].length
        = [[some (Child.mk (some 1))], [some (Child.mk (some 2))]].length ∧
      getCount s' = getCount (init [] : RepeatedField childType)
        + [[some (Child.mk (some 1))], [some (Child.mk (some 2))]].length ∧
      ∀ i : Nat, i < getCount (init [] : RepeatedField childType) →
        get s' (i : Int) = get (init [] : RepeatedField childType) (i : Int) :=
  ⟨Or.inl rfl,
    (parseEach_appends_decoded (T := childType) childField (init []) (Or.inl rfl)
      [[some (Child.mk (some 1))], [some (Child.mk (some 2))]]).1 [child 1, child 2] rfl⟩

end RepeatedMessageFieldGenerator

/-! ## Size and round trip: theorems -/

theorem javaInt_isJavaInt (x : Int) : IsJavaInt (javaInt x) := by
  unfold IsJavaInt javaInt
  omega

theorem javaInt_of_isJavaInt {x : Int} (h : IsJavaInt x) : javaInt x = x := by
  unfold IsJavaInt at h
  unfold javaInt
  omega

theorem javaInt_add_javaInt (a b : Int) : javaInt (javaInt a + b) = javaInt (a + b) := by
  unfold javaInt
  omega

/-- Under the assumption on the runtime, the size routine the template picks
returns the number of bytes the write routine it picks appends. -/
theorem computeGroupOrMessageSize_eq {T : MessageType} (O : CodedOutput T)
    (d : FieldDescriptor)
    (hsize : ∀ (n : Int) (e : T.Msg),
      O.computeGroupSize n e = ((O.writeGroup n e).length : Int) ∧
      O.computeMessageSize n e = ((O.writeMessage n e).length : Int))
    (e : T.Msg) :
    computeGroupOrMessageSize O d e = ((writeGroupOrMessage O d e).length : Int) := by
  unfold computeGroupOrMessageSize writeGroupOrMessage
  split
  · exact (hsize _ _).1
  · exact (hsize _ _).2

theorem foldl_write {M : Type} (w : M → List Byte) (es : List M) :
    ∀ output : List Byte,
      es.foldl (fun output element => output ++ w element) output = output ++ es.flatMap w := by
  induction es with
  | nil => intro output; simp
  | cons e es ih =>
    intro output
    simp only [List.foldl_cons, List.flatMap_cons, ih, List.append_assoc]

theorem foldl_size {M : Type} (w : M → List Byte) (c : M → Int)
    (hc : ∀ e, c e = ((w e).length : Int)) (es : List M) :
    ∀ size : Int, IsJavaInt size →
      es.foldl (fun size element => javaInt (size + c element)) size
        = javaInt (size + ((es.flatMap w).length : Int)) := by
  induction es with
  | nil =>
    intro size hsz
    simp [javaInt_of_isJavaInt hsz]
  | cons e es ih =>
    intro size _
    simp only [List.foldl_cons, List.flatMap_cons, List.length_append, Nat.cast_add]
    rw [ih _ (javaInt_isJavaInt _), javaInt_add_javaInt, hc e, Int.add_assoc]

/-- C12: assuming that `compute…Size(number, e)` is the number of bytes
`write…(number, e)` writes, for either routine kind, the size code adds to the
`int` variable `size`, in `int` arithmetic, exactly the number of bytes the
serialization code writes, in every field state: nothing for a singular field
with presence false, the size of the one unit with presence true, the sum over
the elements in order for a repeated field; where the sum fits an `int` the
result is the sum itself.  The two templates of a generator have the same
guard or loop head, the same field number and the same routine kind. -/
theorem size_agrees_with_serialization {T : MessageType} (H : Helpers) (O : CodedOutput T)
    (d : FieldDescriptor)
    (hsize : ∀ (n : Int) (e : T.Msg),
      O.computeGroupSize n e = ((O.writeGroup n e).length : Int) ∧
      O.computeMessageSize n e = ((O.writeMessage n e).length : Int))
    (s1 : SingularField T) (s2 : RepeatedField T) (output : List Byte) (size : Int)
    (hsz : IsJavaInt size) :
    (s1.has = false →
      MessageFieldGenerator.serializationCode O d s1 output = output ∧
      MessageFieldGenerator.serializedSizeCode O d s1 size = size) ∧
    (s1.has = true →
      MessageFieldGenerator.serializationCode O d s1 output
        = output ++ writeGroupOrMessage O d s1.value_ ∧
      MessageFieldGenerator.serializedSizeCode O d s1 size
        = javaInt (size + ((writeGroupOrMessage O d s1.value_).length : Int))) ∧
    (∃ written : List Byte,
      MessageFieldGenerator.serializationCode O d s1 output = output ++ written ∧
      MessageFieldGenerator.serializedSizeCode O d s1 size
        = javaInt (size + (written.length : Int)) ∧
      (IsJavaInt (size + (written.length : Int)) →
        MessageFieldGenerator.serializedSizeCode O d s1 size = size + (written.length : Int))) ∧
    (RepeatedMessageFieldGenerator.serializationCode O d s2 output
        = output ++ (RepeatedMessageFieldGenerator.elements s2).flatMap (writeGroupOrMessage O d) ∧
      RepeatedMessageFieldGenerator.serializedSizeCode O d s2 size
        = javaInt (size + ((((RepeatedMessageFieldGenerator.elements s2).flatMap
            (writeGroupOrMessage O d)).length : Nat) : Int)) ∧
      (IsJavaInt (size + ((((RepeatedMessageFieldGenerator.elements s2).flatMap
            (writeGroupOrMessage O d)).length : Nat) : Int)) →
        RepeatedMessageFieldGenerator.serializedSizeCode O d s2 size
          = size + ((((RepeatedMessageFieldGenerator.elements s2).flatMap
            (writeGroupOrMessage O d)).length : Nat) : Int))) ∧
    (MessageFieldGenerator.GenerateSerializationCode H d =
        hasGuard (H.UnderscoresToCapitalizedCamelCase d)
          ++ writeStatement (group_or_message d) (SimpleItoa d.number)
              (getterCall (H.UnderscoresToCapitalizedCamelCase d))
          ++ "\x7d\r\n" ∧
      MessageFieldGenerator.GenerateSerializedSizeCode H d =
        hasGuard (H.UnderscoresToCapitalizedCamelCase d)
          ++ computeSizeStatement (group_or_message d) (SimpleItoa d.number)
              (getterCall (H.UnderscoresToCapitalizedCamelCase d))
          ++ "\x7d\r\n") ∧
    (RepeatedMessageFieldGenerator.GenerateSerializationCode H d =
        elementLoop (H.ClassName d.message_type) (H.UnderscoresToCapitalizedCamelCase d)
          ++ writeStatement (group_or_message d) (SimpleItoa d.number) "element"
          ++ "\x7d\r\n" ∧
      RepeatedMessageFieldGenerator.GenerateSerializedSizeCode H d =
        elementLoop (H.ClassName d.message_type) (H.UnderscoresToCapitalizedCamelCase d)
          ++ computeSizeStatement (group_or_message d) (SimpleItoa d.number) "element"
          ++ "\x7d\r\n") := by
  have habsent : s1.has = false →
      MessageFieldGenerator.serializationCode O d s1 output = output ∧
      MessageFieldGenerator.serializedSizeCode O d s1 size = size := by
    intro h
    simp [MessageFieldGenerator.serializationCode, MessageFieldGenerator.serializedSizeCode,
      MessageFieldGenerator.hasField, h]
  have hpresent : s1.has = true →
      MessageFieldGenerator.serializationCode O d s1 output
        = output ++ writeGroupOrMessage O d s1.value_ ∧
      MessageFieldGenerator.serializedSizeCode O d s1 size
        = javaInt (size + ((writeGroupOrMessage O d s1.value_).length : Int)) := by
    intro h
    simp [MessageFieldGenerator.serializationCode, MessageFieldGenerator.serializedSizeCode,
      MessageFieldGenerator.hasField, MessageFieldGenerator.getField, h,
      computeGroupOrMessageSize_eq O d hsize]
  have hrep : RepeatedMessageFieldGenerator.serializedSizeCode O d s2 size
      = javaInt (size + ((((RepeatedMessageFieldGenerator.elements s2).flatMap
          (writeGroupOrMessage O d)).length : Nat) : Int)) :=
    foldl_size (writeGroupOrMessage O d) (computeGroupOrMessageSize O d)
      (computeGroupOrMessageSize_eq O d hsize) _ size hsz
  refine ⟨habsent, hpresent, ?_, ⟨foldl_write _ _ output, hrep, fun hfit => ?_⟩,
    ⟨singular_serialization_text H d, singular_size_text H d⟩,
    ⟨repeated_serialization_text H d, repeated_size_text H d⟩⟩
  · cases hh : s1.has with
    | false =>
      obtain ⟨h1, h2⟩ := habsent hh
      refine ⟨[], by simpa using h1, ?_, fun _ => by simpa using h2⟩
      rw [h2]
      simp [javaInt_of_isJavaInt hsz]
    | true =>
      obtain ⟨h1, h2⟩ := hpresent hh
      exact ⟨_, h1, h2, fun hfit => by rw [h2, javaInt_of_isJavaInt hfit]⟩
  · rw [hrep, javaInt_of_isJavaInt hfit]

/-- The output stream of the examples writes, for a size, what it counts. -/
theorem childOutput_sizes (n : Int) (e : childType.Msg) :
    childOutput.computeGroupSize n e = ((childOutput.writeGroup n e).length : Int) ∧
    childOutput.computeMessageSize n e = ((childOutput.writeMessage n e).length : Int) := by
  simp only [childOutput, List.length_cons, List.length_append, List.length_nil,
    Nat.cast_add, Nat.cast_ofNat, Nat.cast_one]
  constructor <;> omega

/-- C12 at a concrete input: a `Child` field, number 3, holding `{x:5}` as a
singular field and `{x:1}, {x:2}` as a repeated one, with `size` at 0. -/
theorem size_agrees_with_serialization_witness :
    IsJavaInt 0 ∧
    MessageFieldGenerator.serializedSizeCode childOutput childField
        (SingularField.mk true (child 5)) 0
      = javaInt (0 + ((writeGroupOrMessage childOutput childField (child 5)).length : Int)) ∧
    RepeatedMessageFieldGenerator.serializedSizeCode childOutput childField
        (RepeatedField.mk [[child 1, child 2]] (ListRef.arrayList 0)) 0
      = javaInt (0 + ((((RepeatedMessageFieldGenerator.elements
          (RepeatedField.mk [[child 1, child 2]] (ListRef.arrayList 0) :
            RepeatedField childType)).flatMap
          (writeGroupOrMessage childOutput childField)).length : Nat) : Int)) :=
  ⟨by unfold IsJavaInt; omega,
    ((size_agrees_with_serialization (Helpers.mk (fun _ => "child") (fun _ => "Child") id)
      childOutput childField childOutput_sizes (SingularField.mk true (child 5))
      (RepeatedField.mk [[child 1, child 2]] (ListRef.arrayList 0)) [] 0
      (by unfold IsJavaInt; omega)).2.1 rfl).2,
    (size_agrees_with_serialization (Helpers.mk (fun _ => "child") (fun _ => "Child") id)
      childOutput childField childOutput_sizes (SingularField.mk true (child 5))
      (RepeatedField.mk [[child 1, child 2]] (ListRef.arrayList 0)) [] 0
      (by unfold IsJavaInt; omega)).2.2.2.1.2.1⟩

/-- Every occurrence of a well-formed region decodes. -/
theorem decodeEach_of_wellformed {T : MessageType} (d : FieldDescriptor) (region : List T.Input)
    (hwf : ∀ input ∈ region, (readOccurrence T d input T.newBuilder).isSome = true) :
    ∃ ds, decodeEach T d region = some ds := by
  induction region with
  | nil => exact ⟨[], rfl⟩
  | cons input rest ih =>
    obtain ⟨ds, hds⟩ := ih (fun i hi => hwf i (List.mem_cons_of_mem _ hi))
    have h := hwf input (List.mem_cons_self _ _)
    cases hr : readOccurrence T d input T.newBuilder with
    | none => simp [hr] at h
    | some p => exact ⟨T.buildPartial p.1 :: ds, by simp [decodeEach, hr, hds]⟩

/-- With a codec that round-trips, writing the elements decoded from a region
gives back the bytes of the region. -/
theorem decodeEach_bytes {T : MessageType} (O : CodedOutput T) (d : FieldDescriptor)
    (occurrence : T.Input → List Byte)
    (hrt : ∀ (input : T.Input) (b : T.Builder) (input' : T.Input),
      readOccurrence T d input T.newBuilder = some (b, input') →
      writeGroupOrMessage O d (T.buildPartial b) = occurrence input)
    (region : List T.Input) :
    ∀ ds, decodeEach T d region = some ds →
      ds.flatMap (writeGroupOrMessage O d) = regionBytes occurrence region := by
  induction region with
  | nil =>
    intro ds h
    simp only [decodeEach, Option.some.injEq] at h
    rw [← h]
    rfl
  | cons input rest ih =>
    intro ds h
    cases hr : readOccurrence T d input T.newBuilder with
    | none => simp [decodeEach, hr] at h
    | some p =>
      cases hd : decodeEach T d rest with
      | none => simp [decodeEach, hr, hd] at h
      | some ds' =>
        simp only [decodeEach, hr, hd, Option.some.injEq] at h
        rw [← h]
        simp only [List.flatMap_cons, regionBytes]
        rw [hrt input p.1 p.2 hr]
        have := ih ds' hd
        simp only [regionBytes] at this
        rw [this]

theorem readOccurrence_by_kind {T : MessageType} (d : FieldDescriptor) (input : T.Input)
    (b : T.Builder) :
    readOccurrence T d input b =
      (match d.type with
        | .TYPE_GROUP => T.readGroup input d.number b
        | .TYPE_MESSAGE => T.readMessage input b) := by
  unfold readOccurrence
  cases d.type <;> simp

theorem writeGroupOrMessage_by_kind {T : MessageType} (O : CodedOutput T) (d : FieldDescriptor)
    (value : T.Msg) :
    writeGroupOrMessage O d value =
      (match d.type with
        | .TYPE_GROUP => O.writeGroup d.number value
        | .TYPE_MESSAGE => O.writeMessage d.number value) := by
  unfold writeGroupOrMessage group_or_message
  cases d.type <;> simp

/-- From a codec whose two routine pairs round-trip: what the parsing code
reads at an occurrence, the serialization code writes back as its bytes. -/
theorem read_then_write_round_trips {T : MessageType} (O : CodedOutput T)
    (d : FieldDescriptor) (occurrence : Int → FieldType → T.Input → List Byte)
    (hM : ∀ (n : Int) (input : T.Input) (b : T.Builder) (input' : T.Input),
      T.readMessage input T.newBuilder = some (b, input') →
      O.writeMessage n (T.buildPartial b) = occurrence n FieldType.TYPE_MESSAGE input)
    (hG : ∀ (n : Int) (input : T.Input) (b : T.Builder) (input' : T.Input),
      T.readGroup input n T.newBuilder = some (b, input') →
      O.writeGroup n (T.buildPartial b) = occurrence n FieldType.TYPE_GROUP input)
    (input : T.Input) (b : T.Builder) (input' : T.Input)
    (h : readOccurrence T d input T.newBuilder = some (b, input')) :
    writeGroupOrMessage O d (T.buildPartial b) = occurrence d.number d.type input := by
  rw [readOccurrence_by_kind] at h
  rw [writeGroupOrMessage_by_kind]
  cases hk : d.type with
  | TYPE_MESSAGE =>
    rw [hk] at h
    exact hM d.number input b input' h
  | TYPE_GROUP =>
    rw [hk] at h
    exact hG d.number input b input' h

theorem isSome_of_wellFormedOccurrence {T : MessageType} (d : FieldDescriptor) (input : T.Input)
    (h : wellFormedOccurrence T d input = true) :
    (readOccurrence T d input T.newBuilder).isSome = true := by
  rw [readOccurrence_by_kind]
  unfold wellFormedOccurrence at h
  cases hk : d.type <;> rw [hk] at h <;> exact h

/-- A run of the singular parsing code leaves presence true, once it has met an
occurrence or if presence was true. -/
theorem singular_parseEach_has {T : MessageType} (d : FieldDescriptor) (region : List T.Input) :
    ∀ s s' : SingularField T, MessageFieldGenerator.parseEach d region s = some s' →
      (region ≠ [] ∨ s.has = true) → s'.has = true := by
  induction region with
  | nil =>
    intro s s' h hor
    simp only [MessageFieldGenerator.parseEach, Option.some.injEq] at h
    rcases hor with hne | hh
    · exact absurd rfl hne
    · rw [← h]; exact hh
  | cons input rest ih =>
    intro s s' h _
    simp only [MessageFieldGenerator.parseEach, MessageFieldGenerator.parsingCode_eq] at h
    cases hr : readOccurrence T d input
        (if s.has = true then T.mergeFrom T.newBuilder s.value_ else T.newBuilder) with
    | none => simp [hr] at h
    | some p =>
      simp only [hr, Option.map_some'] at h
      exact ih _ s' h (Or.inr rfl)

/-- The message routines of the examples' wire round-trip. -/
theorem wireChild_message_round_trips (n : Int) (input : List Byte) (b : Child)
    (input' : List Byte)
    (h : wireChildType.readMessage input wireChildType.newBuilder = some (b, input')) :
    wireChildOutput.writeMessage n (wireChildType.buildPartial b)
      = wireOccurrence n FieldType.TYPE_MESSAGE input := by
  rcases input with _ | ⟨len, rest⟩
  · simp [wireChildType] at h
  · rcases rest with _ | ⟨m, rest⟩
    · simp [wireChildType, decodeChild] at h
    · rcases m with _ | _ | m
      · simp only [wireChildType, decodeChild, List.length_cons] at h
        split at h
        · rename_i hlen
          simp only [Option.some.injEq, Prod.mk.injEq] at h
          have hl : len = 1 :=
            (by omega : ∀ a c : Nat, c + 1 = a + c → a = 1) len rest.length hlen
          subst hl
          rw [← h.1]
          simp [wireChildOutput, wireChildType, wireOccurrence, encodeChild, overwrite]
        · simp at h
      · rcases rest with _ | ⟨v, rest⟩
        · simp [wireChildType, decodeChild] at h
        · simp only [wireChildType, decodeChild, List.length_cons] at h
          split at h
          · rename_i hlen
            simp only [Option.some.injEq, Prod.mk.injEq] at h
            have hl : len = 2 :=
              (by omega : ∀ a c : Nat, c + 1 + 1 = a + c → a = 2) len rest.length hlen
            subst hl
            rw [← h.1]
            simp [wireChildOutput, wireChildType, wireOccurrence, encodeChild, overwrite]
          · simp at h
      · simp [wireChildType, decodeChild] at h

/-- The group routines of the examples' wire round-trip. -/
theorem wireChild_group_round_trips (n : Int) (input : List Byte) (b : Child)
    (input' : List Byte)
    (h : wireChildType.readGroup input n wireChildType.newBuilder = some (b, input')) :
    wireChildOutput.writeGroup n (wireChildType.buildPartial b)
      = wireOccurrence n FieldType.TYPE_GROUP input := by
  rcases input with _ | ⟨m, rest⟩
  · simp [wireChildType, decodeChild] at h
  · rcases m with _ | _ | m
    · rcases rest with _ | ⟨e, rest⟩
      · simp [wireChildType, decodeChild] at h
      · simp only [wireChildType, decodeChild] at h
        split at h
        · rename_i he
          simp only [Option.some.injEq, Prod.mk.injEq] at h
          rw [← h.1]
          simp [wireChildOutput, wireChildType, wireOccurrence, encodeChild, overwrite, he]
        · simp at h
    · rcases rest with _ | ⟨v, _ | ⟨e, rest⟩⟩
      · simp [wireChildType, decodeChild] at h
      · simp [wireChildType, decodeChild] at h
      · simp only [wireChildType, decodeChild] at h
        split at h
        · rename_i he
          simp only [Option.some.injEq, Prod.mk.injEq] at h
          rw [← h.1]
          simp [wireChildOutput, wireChildType, wireOccurrence, encodeChild, overwrite, he]
        · simp at h
    · simp [wireChildType, decodeChild] at h

/-- C13, as stated, fails for a singular field met twice.  On the wire of the
examples, whose message and group routines both round-trip, the region holds
two well-formed occurrences of the message field `child`, number 3, with `x` 5
and 7; the parsing code run over both from the fresh builder leaves the one
merged value `{x:7}`, and the serialization code writes that one unit, four
bytes, not the eight of the region. -/
theorem singular_round_trip_fails_on_two_occurrences :
    (∀ (n : Int) (input : wireChildType.Input) (b : wireChildType.Builder)
        (input' : wireChildType.Input),
      wireChildType.readMessage input wireChildType.newBuilder = some (b, input') →
      wireChildOutput.writeMessage n (wireChildType.buildPartial b)
        = wireOccurrence n FieldType.TYPE_MESSAGE input) ∧
    (∀ (n : Int) (input : wireChildType.Input) (b : wireChildType.Builder)
        (input' : wireChildType.Input),
      wireChildType.readGroup input n wireChildType.newBuilder = some (b, input') →
      wireChildOutput.writeGroup n (wireChildType.buildPartial b)
        = wireOccurrence n FieldType.TYPE_GROUP input) ∧
    (∀ input ∈ ([[2, 1, 5, 26, 2, 1, 7], [2, 1, 7]] : List (List Byte)),
      wellFormedOccurrence wireChildType childField input = true) ∧
    regionBytes (wireOccurrence childField.number childField.type)
        [[2, 1, 5, 26, 2, 1, 7], [2, 1, 7]] = [26, 2, 1, 5, 26, 2, 1, 7] ∧
    MessageFieldGenerator.parseEach (T := wireChildType) childField
        [[2, 1, 5, 26, 2, 1, 7], [2, 1, 7]] (MessageFieldGenerator.init wireChildType)
      = some (SingularField.mk true (Ref.built (Child.mk (some 7)))) ∧
    MessageFieldGenerator.serializationCode wireChildOutput childField
        (SingularField.mk true (Ref.built (Child.mk (some 7)))) [] = [26, 2, 1, 7] ∧
    MessageFieldGenerator.serializationCode wireChildOutput childField
        (SingularField.mk true (Ref.built (Child.mk (some 7)))) []
      ≠ regionBytes (wireOccurrence childField.number childField.type)
        [[2, 1, 5, 26, 2, 1, 7], [2, 1, 7]] := by
  refine ⟨wireChild_message_round_trips, wireChild_group_round_trips,
    by decide, by decide, by decide, by decide, by decide⟩

/-- C13 (amended): given a codec whose message routines and whose group
routines each round-trip, for a wire region of well-formed occurrences of the
field, of either wire kind: running the parsing code of the repeated generator
over the occurrences from a fresh builder and then its serialization code
writes the bytes of the region; for the singular generator the same holds for
a region of at most one occurrence, and over any region with an occurrence a
run that returns leaves presence true and the serialization code then writes
one unit, that of the value left, however many occurrences went into it. -/
theorem parse_then_serialize_reproduces_region {T : MessageType} (O : CodedOutput T)
    (d : FieldDescriptor) (occurrence : Int → FieldType → T.Input → List Byte)
    (hM : ∀ (n : Int) (input : T.Input) (b : T.Builder) (input' : T.Input),
      T.readMessage input T.newBuilder = some (b, input') →
      O.writeMessage n (T.buildPartial b) = occurrence n FieldType.TYPE_MESSAGE input)
    (hG : ∀ (n : Int) (input : T.Input) (b : T.Builder) (input' : T.Input),
      T.readGroup input n T.newBuilder = some (b, input') →
      O.writeGroup n (T.buildPartial b) = occurrence n FieldType.TYPE_GROUP input)
    (region : List T.Input)
    (hwf : ∀ input ∈ region, wellFormedOccurrence T d input = true)
    (store : Store T.Msg) :
    (∃ s', RepeatedMessageFieldGenerator.parseEach d region
          (RepeatedMessageFieldGenerator.init store) = some s' ∧
      RepeatedMessageFieldGenerator.serializationCode O d s' []
        = regionBytes (occurrence d.number d.type) region) ∧
    (region.length ≤ 1 →
      ∃ s', MessageFieldGenerator.parseEach d region (MessageFieldGenerator.init T) = some s' ∧
        MessageFieldGenerator.serializationCode O d s' []
          = regionBytes (occurrence d.number d.type) region) ∧
    (∀ s', MessageFieldGenerator.parseEach d region (MessageFieldGenerator.init T) = some s' →
      region ≠ [] →
      s'.has = true ∧
      MessageFieldGenerator.serializationCode O d s' [] =
        (match d.type with
          | .TYPE_GROUP => O.writeGroup d.number s'.value_
          | .TYPE_MESSAGE => O.writeMessage d.number s'.value_)) := by
  have hrt := read_then_write_round_trips O d occurrence hM hG
  have hwf' : ∀ input ∈ region, (readOccurrence T d input T.newBuilder).isSome = true :=
    fun input hi => isSome_of_wellFormedOccurrence d input (hwf input hi)
  refine ⟨?_, ?_, ?_⟩
  · obtain ⟨ds, hds⟩ := decodeEach_of_wellformed d region hwf'
    obtain ⟨s', hs', _, he⟩ :=
      (RepeatedMessageFieldGenerator.parseEach_decodeEach d region
        (RepeatedMessageFieldGenerator.init store) (Or.inl rfl)).1 ds hds
    refine ⟨s', hs', ?_⟩
    have hser := foldl_write (writeGroupOrMessage O d)
      (RepeatedMessageFieldGenerator.elements s') []
    simp only [List.nil_append] at hser
    rw [RepeatedMessageFieldGenerator.serializationCode]
    show List.foldl _ [] (RepeatedMessageFieldGenerator.elements s') = _
    rw [hser, he]
    simp only [RepeatedMessageFieldGenerator.elements, RepeatedMessageFieldGenerator.init,
      contents, List.nil_append]
    exact decodeEach_bytes O d (occurrence d.number d.type) hrt region ds hds
  · intro hlen
    match region, hwf', hlen with
    | [], _, _ => exact ⟨MessageFieldGenerator.init T, rfl, rfl⟩
    | [input], hwf', _ =>
      have h := hwf' input (List.mem_cons_self _ _)
      cases hr : readOccurrence T d input T.newBuilder with
      | none => simp [hr] at h
      | some p =>
        refine ⟨SingularField.mk true (T.buildPartial p.1), ?_, ?_⟩
        · simp [MessageFieldGenerator.parseEach, MessageFieldGenerator.parsingCode_eq,
            MessageFieldGenerator.init, hr]
        · simp only [MessageFieldGenerator.serializationCode, MessageFieldGenerator.hasField,
            MessageFieldGenerator.getField, if_true, List.nil_append, regionBytes,
            List.flatMap_cons, List.flatMap_nil, List.append_nil]
          exact hrt input p.1 p.2 hr
  · intro s' hs' hne
    have hhas := singular_parseEach_has d region _ s' hs' (Or.inl hne)
    refine ⟨hhas, ?_⟩
    simp only [MessageFieldGenerator.serializationCode, MessageFieldGenerator.hasField,
      MessageFieldGenerator.getField, hhas, if_true, List.nil_append]
    unfold writeGroupOrMessage group_or_message
    cases d.type <;> simp

/-- C13 (amended) at concrete inputs, on the wire of the examples: the region
of the two group occurrences with `x` 5 and 7 for the repeated field, and the
region of the one message occurrence with `x` 5 for the singular field. -/
theorem parse_then_serialize_reproduces_region_witness :
    (∀ input ∈ ([[1, 5, 28, 27, 1, 7, 28], [1, 7, 28]] : List (List Byte)),
      wellFormedOccurrence wireChildType childGroupField input = true) ∧
    regionBytes (wireOccurrence childGroupField.number childGroupField.type)
        [[1, 5, 28, 27, 1, 7, 28], [1, 7, 28]] = [27, 1, 5, 28, 27, 1, 7, 28] ∧
    (∃ s', RepeatedMessageFieldGenerator.parseEach (T := wireChildType) childGroupField
          [[1, 5, 28, 27, 1, 7, 28], [1, 7, 28]]
          (RepeatedMessageFieldGenerator.init []) = some s' ∧
      RepeatedMessageFieldGenerator.serializationCode wireChildOutput childGroupField s' []
        = regionBytes (wireOccurrence childGroupField.number childGroupField.type)
            [[1, 5, 28, 27, 1, 7, 28], [1, 7, 28]]) ∧
    (∃ s', MessageFieldGenerator.parseEach (T := wireChildType) childField
          [[2, 1, 5]] (MessageFieldGenerator.init wireChildType) = some s' ∧
      MessageFieldGenerator.serializationCode wireChildOutput childField s' []
        = regionBytes (wireOccurrence childField.number childField.type) [[2, 1, 5]]) ∧
    RepeatedMessageFieldGenerator.parseEach (T := wireChildType) childGroupField
        [[1, 5, 28, 27, 1, 7, 28], [1, 7, 28]] (RepeatedMessageFieldGenerator.init [])
      = some (RepeatedField.mk
          [[Ref.built (Child.mk (some 5)), Ref.built (Child.mk (some 7))]]
          (ListRef.arrayList 0)) ∧
    RepeatedMessageFieldGenerator.serializationCode wireChildOutput childGroupField
        (RepeatedField.mk [[Ref.built (Child.mk (some 5)), Ref.built (Child.mk (some 7))]]
          (ListRef.arrayList 0)) []
      = [27, 1, 5, 28, 27, 1, 7, 28] :=
  ⟨by decide, by decide,
    (parse_then_serialize_reproduces_region wireChildOutput childGroupField wireOccurrence
      wireChild_message_round_trips wireChild_group_round_trips
      [[1, 5, 28, 27, 1, 7, 28], [1, 7, 28]] (by decide) []).1,
    (parse_then_serialize_reproduces_region wireChildOutput childField wireOccurrence
      wireChild_message_round_trips wireChild_group_round_trips
      [[2, 1, 5]] (by decide) []).2.1 (by decide),
    rfl, by decide⟩

end CSharpMessageField
